import Mathlib

set_option maxHeartbeats 1000000

/-!
Verification development for the `stk` limit-order-book reconstruction engine.

The definitions below are a shallow embedding of the C++ sources:
  * `src/cpp/include/AnalysisHighFrequency.hpp`  (LOB engine),
  * `src/cpp/include/math/sample/ResampleRunBar.hpp` (run-bar sampler),
  * `src/cpp/include/features/backend/FeatureStore.hpp` (progress fence),
  * `src/cpp/include/codec/compress_algo/rle_compressor.hpp` (RLE codec).

Machine integers are modelled as `Nat`/`Int`; signed-overflow-free arithmetic is
modelled exactly, and the one place where unsigned wrap-around matters
(the `uint32_t` subtraction in the run-bar time guard) carries an explicit
`% 2^32`.  Pointer-based containers are modelled by value: a C++ `Level*` is
identified by the level's price (live levels have pairwise distinct prices),
hash maps become association lists (iteration order of `std::unordered_map`
is unspecified in C++; the association list fixes one order).
-/

namespace STK

/-- Embedded `L2::Order` input record (`codec/L2_DataType.hpp`).  Field ranges
(uint8/uint16/uint32) are respected by all concrete inputs used below. -/
structure L2Order where
  hour : Nat
  minute : Nat
  second : Nat
  millisecond : Nat
  order_type : Nat
  order_dir : Nat
  price : Nat
  volume : Nat
  bid_order_id : Nat
  ask_order_id : Nat
  deriving Repr, DecidableEq

/-- Modelled from the spec: the enumerators `L2::OrderType` / `L2::OrderDirection`
are not defined under `src/`; the values are fixed by the schema comment in
`codec/L2_DataType.hpp`: `order_type` is `0:maker 1:cancel 2:change 3:taker`,
`order_dir` is `0:bid 1:ask`. -/
def MAKER : Nat := 0

/-- `order_type` value for cancels (see `MAKER`). -/
def CANCEL : Nat := 1

/-- `order_type` value for the unhandled `change` events (see `MAKER`). -/
def CHANGE : Nat := 2

/-- `order_type` value for takers (see `MAKER`). -/
def TAKER : Nat := 3

/-- Book cell `Order {qty, id}` (`AnalysisHighFrequency.hpp`); the debug-only
`timestamp` field is omitted. -/
structure Order where
  qty : Int
  id : Nat
  deriving Repr, DecidableEq

/-- Price level (`struct Level`): cached `net_quantity`, cached `order_count`,
and the vector of orders resting at this price. -/
structure Level where
  price : Nat
  net_quantity : Int
  order_count : Nat
  orders : List Order
  deriving Repr, DecidableEq

/-- `enum class DeferReason`. -/
inductive DeferReason where
  | OUT_OF_ORDER
  | CALL_AUCTION
  | SPECIAL_MAKER
  | ZERO_PRICE_CANCEL
  deriving Repr, DecidableEq, BEq

/-- `struct DeferredOrder`. -/
structure DeferredOrder where
  signed_volume : Int
  reported_price : Nat
  timestamp : Nat
  reason : DeferReason
  is_bid : Bool
  deriving Repr, DecidableEq

/-- `struct Location`: a `Level*` plus index.  The pointer is identified by the
level's price (live levels have pairwise distinct prices). -/
structure Location where
  price : Nat
  index : Nat
  deriving Repr, DecidableEq

/-- The engine state of `class AnalysisHighFrequency`.  `was_in_matching_period`
is the `static bool` local of `process`; the lazily rebuilt
`cached_visible_prices_` vector is not part of the state (it always equals the
sorted `visible` set at every read, so `min/max_visible_price` read `visible`
directly). -/
structure EngineState where
  levels : List Level
  order_lookup : List (Nat × Location)
  deferred_queue : List (Nat × DeferredOrder)
  visible : List Nat
  best_bid : Nat
  best_ask : Nat
  tob_dirty : Bool
  prev_tick : Nat
  curr_tick : Nat
  new_tick : Bool
  was_in_matching_period : Bool
  deriving Repr, DecidableEq

/-- Association-list lookup, i.e. `std::unordered_map::find`. -/
def lookupFind {α : Type} (m : List (Nat × α)) (k : Nat) : Option α :=
  (m.find? (fun e => e.1 == k)).map Prod.snd

/-- Association-list erase, i.e. `std::unordered_map::erase` (keys are unique). -/
def eraseKey {α : Type} (m : List (Nat × α)) (k : Nat) : List (Nat × α) :=
  m.filter (fun e => !(e.1 == k))

/-- In-place update of the value stored under an existing key
(`iterator->second = v`). -/
def setKey {α : Type} (m : List (Nat × α)) (k : Nat) (v : α) : List (Nat × α) :=
  m.map (fun e => if e.1 == k then (k, v) else e)

/-- `Level::add`: push the order, bump the count, accumulate the net quantity. -/
def Level.add (L : Level) (o : Order) : Level :=
  { L with orders := L.orders ++ [o],
           order_count := L.order_count + 1,
           net_quantity := L.net_quantity + o.qty }

/-- `Level::remove`: subtract the removed quantity, swap-and-pop.  The C++
asserts `order_index < orders.size()`; an out-of-range index is modelled as a
no-op (never reached from reachable states). -/
def Level.remove (L : Level) (i : Nat) : Level :=
  match L.orders.get? i with
  | none => L
  | some removed =>
      let swapped := if i = L.orders.length - 1 then L.orders
                     else L.orders.set i (L.orders.getLastD removed)
      { L with net_quantity := L.net_quantity - removed.qty,
               orders := swapped.dropLast,
               order_count := L.order_count - 1 }

/-- `find_level`: `price_levels_` lookup. -/
def find_level (s : EngineState) (p : Nat) : Option Level :=
  s.levels.find? (fun L => L.price == p)

/-- Write back a mutated level (mutation through the `Level*`). -/
def set_level (s : EngineState) (L : Level) : EngineState :=
  { s with levels := s.levels.map (fun M => if M.price == L.price then L else M) }

/-- `add_visible_price`: set the bitmap bit. -/
def add_visible_price (s : EngineState) (p : Nat) : EngineState :=
  if s.visible.contains p then s else { s with visible := p :: s.visible }

/-- `remove_visible_price`: clear the bitmap bit. -/
def remove_visible_price (s : EngineState) (p : Nat) : EngineState :=
  if s.visible.contains p then { s with visible := s.visible.filter (fun q => !(q == p)) }
  else s

/-- `update_visible_price`: bit present iff the level has nonzero net quantity. -/
def update_visible_price (s : EngineState) (L : Level) : EngineState :=
  if L.net_quantity ≠ 0 then add_visible_price s L.price else remove_visible_price s L.price

/-- `remove_level` (as called: with `erase_visible = true`). -/
def remove_level (s : EngineState) (p : Nat) : EngineState :=
  remove_visible_price { s with levels := s.levels.filter (fun L => !(L.price == p)) } p

def PRICE_RANGE_SIZE : Nat := 65536

/-- Ascending bitmap scan of `next_ask_above`, fuelled by the number of
remaining prices; returns `0` when the scan runs off the price range. -/
def next_ask_scan (vis : List Nat) : Nat → Nat → Nat
  | 0, _ => 0
  | fuel + 1, q => if vis.contains q then q else next_ask_scan vis fuel (q + 1)

/-- `next_ask_above`: first visible price strictly above `from_price`. -/
def next_ask_above (vis : List Nat) (from_price : Nat) : Nat :=
  next_ask_scan vis (PRICE_RANGE_SIZE - (from_price + 1)) (from_price + 1)

/-- Descending bitmap scan of `next_bid_below` from `q` down to `0`
(a miss at price `0` and a hit at price `0` both yield `0`, as in the C++). -/
def next_bid_scan (vis : List Nat) : Nat → Nat
  | 0 => 0
  | q + 1 => if vis.contains (q + 1) then q + 1 else next_bid_scan vis q

/-- `next_bid_below`: first visible price strictly below `from_price`. -/
def next_bid_below (vis : List Nat) (from_price : Nat) : Nat :=
  if from_price = 0 then 0 else next_bid_scan vis (from_price - 1)

/-- `min_visible_price` (front of the sorted visible-price cache). -/
def min_visible_price (s : EngineState) : Nat :=
  match s.visible with
  | [] => 0
  | p :: rest => rest.foldl Nat.min p

/-- `max_visible_price` (back of the sorted visible-price cache). -/
def max_visible_price (s : EngineState) : Nat :=
  match s.visible with
  | [] => 0
  | p :: rest => rest.foldl Nat.max p

/-- `update_tob` (bootstrap-only recomputation). -/
def update_tob (s : EngineState) : EngineState :=
  if s.tob_dirty = false then s
  else if s.best_bid = 0 ∧ s.best_ask = 0 then
    { s with best_bid := max_visible_price s, best_ask := min_visible_price s,
             tob_dirty := false }
  else { s with tob_dirty := false }

/-- Accessor `best_bid()`. -/
def best_bid (s : EngineState) : Nat := (update_tob s).best_bid

/-- Accessor `best_ask()`. -/
def best_ask (s : EngineState) : Nat := (update_tob s).best_ask

/-- `get_signed_volume`. -/
def get_signed_volume (o : L2Order) : Int :=
  let is_bid := o.order_dir = 0
  match o.order_type with
  | 0 => if is_bid then (o.volume : Int) else -(o.volume : Int)
  | 1 => if is_bid then -(o.volume : Int) else (o.volume : Int)
  | 3 => if is_bid then (o.volume : Int) else -(o.volume : Int)
  | _ => 0

/-- `get_target_id`. -/
def get_target_id (o : L2Order) : Nat :=
  let is_bid := o.order_dir = 0
  match o.order_type with
  | 0 => if is_bid then o.bid_order_id else o.ask_order_id
  | 1 => if is_bid then o.bid_order_id else o.ask_order_id
  | 3 => if is_bid then o.ask_order_id else o.bid_order_id
  | _ => 0

/-- Packed timestamp `(h<<24)|(m<<16)|(s<<8)|ms`; for the uint8 fields the
bit-or equals this sum. -/
def pack_tick (o : L2Order) : Nat :=
  o.hour * 16777216 + o.minute * 65536 + o.second * 256 + o.millisecond

/-- Hour extracted from a packed tick (`(t >> 24) & 0xFF`). -/
def hourOf (t : Nat) : Nat := t / 16777216 % 256

/-- Minute extracted from a packed tick (`(t >> 16) & 0xFF`). -/
def minuteOf (t : Nat) : Nat := t / 65536 % 256

/-- `is_call_auction_period` (9:15-9:25 and the 14:57-15:00 closing window). -/
def is_call_auction_period (t : Nat) : Bool :=
  if hourOf t = 9 ∧ 15 ≤ minuteOf t ∧ minuteOf t < 25 then true
  else if hourOf t = 14 ∧ 57 ≤ minuteOf t then true
  else if hourOf t = 15 ∧ minuteOf t = 0 then true
  else false

/-- `is_call_auction_matching_period` (9:25-9:30). -/
def is_call_auction_matching_period (t : Nat) : Bool :=
  if hourOf t = 9 ∧ 25 ≤ minuteOf t ∧ minuteOf t < 30 then true else false

/-- `apply_volume_change`: the unified order-processing core.  The iterator
argument of the C++ is, at every call site, `order_lookup_.find(target_id)` of
the current lookup table, so the lookup is re-done here.  Returns the state and
the `was_fully_consumed` flag. -/
def apply_volume_change (s : EngineState) (target_id : Nat) (price : Nat)
    (signed_volume : Int) : EngineState × Bool :=
  match lookupFind s.order_lookup target_id with
  | some loc =>
    match find_level s loc.price with
    | none => (s, false)
    | some L =>
      match L.orders.get? loc.index with
      | none => (s, false)
      | some target_order =>
        let new_qty := target_order.qty + signed_volume
        if new_qty = 0 then
          let L1 := Level.remove L loc.index
          let lookup1 := eraseKey s.order_lookup target_id
          let lookup2 :=
            if loc.index < L1.orders.length then
              match L1.orders.get? loc.index with
              | some moved =>
                match lookupFind lookup1 moved.id with
                | some mloc => setKey lookup1 moved.id { mloc with index := loc.index }
                | none => lookup1
              | none => lookup1
            else lookup1
          let s1 := { set_level s L1 with order_lookup := lookup2 }
          if L1.order_count = 0 then
            (remove_level s1 L1.price, true)
          else
            (update_visible_price s1 L1, true)
        else
          let L1 := { L with net_quantity := L.net_quantity + signed_volume,
                             orders := L.orders.set loc.index { target_order with qty := new_qty } }
          (update_visible_price (set_level s L1) L1, false)
  | none =>
    match find_level s price with
    | some L =>
      let idx := L.orders.length
      let L1 := Level.add L ⟨signed_volume, target_id⟩
      let s1 := set_level s L1
      let s2 := { s1 with order_lookup := s1.order_lookup ++ [(target_id, ⟨price, idx⟩)] }
      (update_visible_price s2 L1, false)
    | none =>
      let L1 := Level.add ⟨price, 0, 0, []⟩ ⟨signed_volume, target_id⟩
      let s1 := { s with levels := s.levels ++ [L1] }
      let s2 := { s1 with order_lookup := s1.order_lookup ++ [(target_id, ⟨price, 0⟩)] }
      (update_visible_price s2 L1, false)

/-- `update_tob_after_trade`. -/
def update_tob_after_trade (s : EngineState) (o : L2Order) (was_fully_consumed : Bool)
    (trade_price : Nat) : EngineState :=
  let is_bid := o.order_dir = 0
  if was_fully_consumed then
    if is_bid then
      { s with best_ask := next_ask_above s.visible trade_price, tob_dirty := false }
    else
      { s with best_bid := next_bid_below s.visible trade_price, tob_dirty := false }
  else
    if is_bid then { s with best_ask := trade_price, tob_dirty := false }
    else { s with best_bid := trade_price, tob_dirty := false }

/-- `deferred_queue_.emplace` (no-op when the key is already present). -/
def enqueue_deferred (s : EngineState) (k : Nat) (d : DeferredOrder) : EngineState :=
  match lookupFind s.deferred_queue k with
  | some _ => s
  | none => { s with deferred_queue := s.deferred_queue ++ [(k, d)] }

/-- The self-order cleanup block shared by the two TAKER sub-branches of
`update_lob_deferred` (special-market-order cleanup). -/
def cleanup_special (s : EngineState) (o : L2Order) (tid : Nat) : EngineState :=
  let is_bid := o.order_dir = 0
  let self_order_id := if is_bid then o.bid_order_id else o.ask_order_id
  if self_order_id ≠ 0 ∧ self_order_id ≠ tid then
    match lookupFind s.deferred_queue self_order_id with
    | some sd =>
        if sd.reason = DeferReason.SPECIAL_MAKER then
          { s with deferred_queue := eraseKey s.deferred_queue self_order_id }
        else s
    | none => s
  else s

/-- `update_lob_deferred`: the slow path for corner cases. -/
def update_lob_deferred (s : EngineState) (o : L2Order) (sv : Int) (tid : Nat)
    (order_found : Bool) (in_call_auction : Bool) : Bool × EngineState :=
  let deferred := lookupFind s.deferred_queue tid
  if o.order_type = MAKER then
    let in_call_auction_extended :=
      in_call_auction || is_call_auction_matching_period s.curr_tick
    if o.price = 0 then
      match deferred with
      | some d =>
        let sv1 := sv + d.signed_volume
        let s1 := { s with deferred_queue := eraseKey s.deferred_queue tid }
        if sv1 = 0 then (true, s1)
        else (true, enqueue_deferred s1 tid
                ⟨sv1, 0, s.curr_tick, DeferReason.SPECIAL_MAKER, o.order_dir = 0⟩)
      | none =>
        (true, enqueue_deferred s tid
                ⟨sv, 0, s.curr_tick, DeferReason.SPECIAL_MAKER, o.order_dir = 0⟩)
    else if in_call_auction_extended = true then
      match deferred with
      | some d =>
        let sv1 := sv + d.signed_volume
        let s1 := { s with deferred_queue := eraseKey s.deferred_queue tid }
        if sv1 = 0 then (true, s1)
        else (true, enqueue_deferred s1 tid
                ⟨sv1, o.price, s.curr_tick, DeferReason.CALL_AUCTION, o.order_dir = 0⟩)
      | none =>
        (true, enqueue_deferred s tid
                ⟨sv, o.price, s.curr_tick, DeferReason.CALL_AUCTION, o.order_dir = 0⟩)
    else
      match deferred with
      | some d =>
        let sv1 := sv + d.signed_volume
        let s1 := { s with deferred_queue := eraseKey s.deferred_queue tid }
        if sv1 = 0 then (true, s1)
        else (true, (apply_volume_change s1 tid o.price sv1).1)
      | none => (true, (apply_volume_change s tid o.price sv).1)
  else if o.order_type = TAKER then
    match deferred with
    | some d =>
      let maker_volume := d.signed_volume
      let net_volume := maker_volume + sv
      let fully_consumed := net_volume = 0 ∨ (maker_volume > 0 ∧ net_volume ≤ 0) ∨
                            (maker_volume < 0 ∧ net_volume ≥ 0)
      let s1 := if fully_consumed then { s with deferred_queue := eraseKey s.deferred_queue tid }
                else { s with deferred_queue :=
                         setKey s.deferred_queue tid { d with signed_volume := net_volume } }
      (true, cleanup_special s1 o tid)
    | none =>
      if order_found = true then
        let ep := match lookupFind s.order_lookup tid with
                  | some loc => loc.price
                  | none => 0
        let r := apply_volume_change s tid ep sv
        let s1 := update_tob_after_trade r.1 o r.2 ep
        (true, cleanup_special s1 o tid)
      else
        (true, enqueue_deferred s tid
                ⟨sv, o.price, s.curr_tick, DeferReason.OUT_OF_ORDER, o.order_dir = 0⟩)
  else if o.order_type = CANCEL then
    match deferred with
    | some d =>
      let maker_volume := d.signed_volume
      let net_volume := maker_volume + sv
      let fully_cancelled := net_volume = 0 ∨ (maker_volume > 0 ∧ net_volume ≤ 0) ∨
                             (maker_volume < 0 ∧ net_volume ≥ 0)
      if fully_cancelled then
        (true, { s with deferred_queue := eraseKey s.deferred_queue tid })
      else
        (true, { s with deferred_queue :=
                   setKey s.deferred_queue tid { d with signed_volume := net_volume } })
    | none =>
      if order_found = true then
        let ep := match lookupFind s.order_lookup tid with
                  | some loc => loc.price
                  | none => 0
        (true, (apply_volume_change s tid ep sv).1)
      else
        (true, enqueue_deferred s tid
                ⟨sv, o.price, s.curr_tick,
                 (if o.price = 0 then DeferReason.ZERO_PRICE_CANCEL else DeferReason.OUT_OF_ORDER),
                 o.order_dir = 0⟩)
  else (false, s)

/-- `update_lob`: the main dispatch with its two fast paths. -/
def update_lob (s : EngineState) (o : L2Order) : Bool × EngineState :=
  let sv := get_signed_volume o
  let tid := get_target_id o
  if sv = 0 ∨ tid = 0 then (false, s)
  else
    let in_call_auction := is_call_auction_period s.curr_tick
    let order_found := (lookupFind s.order_lookup tid).isSome
    if (o.order_type = TAKER ∨ o.order_type = CANCEL) ∧ order_found = true ∧
       s.deferred_queue = [] then
      let ep := match lookupFind s.order_lookup tid with
                | some loc => loc.price
                | none => 0
      let r := apply_volume_change s tid ep sv
      if o.order_type = TAKER then (true, update_tob_after_trade r.1 o r.2 ep)
      else (true, r.1)
    else if o.order_type = MAKER ∧ in_call_auction = false ∧ s.deferred_queue = [] then
      if o.price = 0 then update_lob_deferred s o sv tid order_found in_call_auction
      else (true, (apply_volume_change s tid o.price sv).1)
    else
      update_lob_deferred s o sv tid order_found in_call_auction

/-- The body of the `flush_call_auction_deferred` loop: the erased
`CALL_AUCTION` entries are applied to the book one by one (the applies never
touch the deferred queue). -/
def flush_apply (s : EngineState) : List (Nat × DeferredOrder) → EngineState
  | [] => s
  | (k, d) :: rest =>
      flush_apply (apply_volume_change s k d.reported_price d.signed_volume).1 rest

/-- `flush_call_auction_deferred`: remove every `CALL_AUCTION` entry and apply
it to the book at its reported price.  Entries are visited in association-list
order (the C++ `unordered_map` iteration order is unspecified). -/
def flush_call_auction_deferred (s : EngineState) : EngineState :=
  let calls := s.deferred_queue.filter (fun e => e.2.reason == DeferReason.CALL_AUCTION)
  let rest := s.deferred_queue.filter (fun e => !(e.2.reason == DeferReason.CALL_AUCTION))
  flush_apply { s with deferred_queue := rest } calls

/-- `process`: main entry point.  `print_book` (console output only) and the
call `resampler_.process(order)` (no such member is defined under `src/`; the
book state is unaffected either way) are not modelled. -/
def process (s : EngineState) (o : L2Order) : Bool × EngineState :=
  let t := pack_tick o
  let s1 := { s with curr_tick := t, new_tick := t != s.prev_tick }
  let in_call_auction := is_call_auction_period t
  let in_matching_period := is_call_auction_matching_period t
  let s2 := if s1.was_in_matching_period && !in_matching_period && !in_call_auction then
              flush_call_auction_deferred s1
            else s1
  let s3 := { s2 with was_in_matching_period := in_matching_period }
  let s4 := { s3 with prev_tick := s3.curr_tick }
  update_lob s4 o

/-- The engine state at construction. -/
def initState : EngineState :=
  { levels := [], order_lookup := [], deferred_queue := [], visible := [],
    best_bid := 0, best_ask := 0, tob_dirty := true,
    prev_tick := 0, curr_tick := 0, new_tick := false,
    was_in_matching_period := false }

/-- A freshly constructed engine in a process whose `static bool
was_in_matching_period` holds a residual value `b`. -/
def initStateWith (b : Bool) : EngineState :=
  { initState with was_in_matching_period := b }

/-- `process_batch`: fold `process` over an event stream, keeping the state. -/
def process_batch (s : EngineState) : List L2Order → EngineState
  | [] => s
  | o :: rest => process_batch (process s o).2 rest

/-- The `DEBUG_SINGLE_DAY` switch, set to `1` in the source
("Exit after processing one day"). -/
def DEBUG_SINGLE_DAY : Bool := true

/-- The field resets performed by `clear()` before its `DEBUG_SINGLE_DAY`
check.  The `static` flag of `process` is out of the member reset's reach. -/
def clear_reset (s : EngineState) : EngineState :=
  { s with levels := [], order_lookup := [], deferred_queue := [], visible := [],
           best_bid := 0, best_ask := 0, tob_dirty := true,
           prev_tick := 0, curr_tick := 0, new_tick := false }

/-- `clear()`: resets all members, then — because `DEBUG_SINGLE_DAY` is set —
terminates the process via `exit(1)`, modelled as `none`. -/
def clear (s : EngineState) : Option EngineState :=
  let s1 := clear_reset s
  if DEBUG_SINGLE_DAY then none else some s1

/-!  Feature-store progress fence (`features/backend/FeatureStore.hpp`). -/

/-- `cs_check_ready`'s core loop over `ts_progress[level_idx]`: return `false`
as soon as one worker's counter is `≤ l0_time_index`.  The per-`(date, level)`
counter row is passed as a list indexed by `core_id`. -/
def cs_check_ready (ts_progress : List Nat) (l0_time_index : Nat) : Bool :=
  match ts_progress with
  | [] => true
  | p :: rest => if p ≤ l0_time_index then false else cs_check_ready rest l0_time_index

/-- `ts_mark_done`: `ts_progress[level_idx][core_id] = l0_time_index + 1`. -/
def ts_mark_done (ts_progress : List Nat) (core_id : Nat) (l0_time_index : Nat) : List Nat :=
  ts_progress.set core_id (l0_time_index + 1)

/-!  RLE column codec (`codec/compress_algo/rle_compressor.hpp`).  Buffers are
byte lists (each entry `< 256`); `size_t` values are serialized as 8
little-endian bytes as on the target platform. -/

/-- 8-byte little-endian encoding of a `size_t`. -/
def toLE8 (n : Nat) : List Nat :=
  [n % 256, n / 256 % 256, n / 65536 % 256, n / 16777216 % 256,
   n / 4294967296 % 256, n / 1099511627776 % 256,
   n / 281474976710656 % 256, n / 72057594037927936 % 256]

/-- The `value_size_bytes`-wide cell starting at value index `i`. -/
def rleChunk (input : List Nat) (vs i : Nat) : List Nat :=
  (input.drop (i * vs)).take vs

/-- The run-length while loop of `RLECompressor::compress` (`run_length < 255`,
fuelled; the fuel `254` covers every admissible growth step). -/
def rleRunLenGo (input : List Nat) (n vs i : Nat) : Nat → Nat → Nat
  | 0, rl => rl
  | fuel + 1, rl =>
    if rl < 255 ∧ i + rl < n ∧ rleChunk input vs i = rleChunk input vs (i + rl)
    then rleRunLenGo input n vs i fuel (rl + 1)
    else rl

/-- Length of the run starting at value index `i`. -/
def rleRunLen (input : List Nat) (n vs i : Nat) : Nat :=
  rleRunLenGo input n vs i 254 1

/-- The `[length][value]` run emission loop of `RLECompressor::compress`
(fuelled by the number of remaining values; each run advances by at least 1). -/
def rleBody (input : List Nat) (n vs : Nat) : Nat → Nat → List Nat
  | 0, _ => []
  | fuel + 1, i =>
    if i < n then
      let rl := rleRunLen input n vs i
      (rl :: rleChunk input vs i) ++ rleBody input n vs fuel (i + rl)
    else []

/-- `RLECompressor::compress`: header (`num_values`, `value_size_bytes`) then
the `[runlen][value]` pairs. -/
def rle_compress (input : List Nat) (num_values value_size_bytes : Nat) : List Nat :=
  if num_values = 0 then []
  else toLE8 num_values ++ toLE8 value_size_bytes ++
       rleBody input num_values value_size_bytes num_values 0

/-- The parsing loop of `RLECompressor::decompress`: starting at byte position
`pos` (the C++ starts at `0`, i.e. on the header), read a run length byte and a
value, and emit `min run_length (num_values - output_pos)` copies.  Returns the
bytes written (consecutively from output position `output_pos`). -/
def rleDecompressGo (compressed : List Nat) (num_values vs : Nat) :
    Nat → Nat → Nat → List Nat
  | 0, _, _ => []
  | fuel + 1, pos, output_pos =>
    if pos < compressed.length ∧ output_pos < num_values then
      let run_length := (compressed.drop pos).headD 0
      let pos1 := pos + 1
      if pos1 + vs ≤ compressed.length then
        let v := (compressed.drop pos1).take vs
        let copies := min run_length (num_values - output_pos)
        (List.replicate copies v).flatten ++
          rleDecompressGo compressed num_values vs fuel (pos1 + vs) (output_pos + copies)
      else []
    else []

/-- `RLECompressor::decompress` into a zero-initialized output buffer of
`num_values * value_size_bytes` bytes (the column decompression helpers of
`column_compressor.hpp` value-initialize the output vector); bytes the loop
never reaches stay `0`. -/
def rle_decompress (compressed : List Nat) (num_values value_size_bytes : Nat) : List Nat :=
  let written :=
    if compressed.length < 16 then []
    else rleDecompressGo compressed num_values value_size_bytes (compressed.length + 1) 0 0
  written ++ List.replicate (num_values * value_size_bytes - written.length) 0

/-!  Volume-imbalance run-bar sampler (`math/sample/ResampleRunBar.hpp`).
The `float` fields are modelled over `ℚ` (the comparisons and the EMA blend
become exact); the `uint32_t` timestamp subtraction of the time guard keeps its
wrap-around via an explicit `% 2^32`. -/

/-- Modelled from the spec: the constants `L2::RESAMPLE_MIN_PERIOD`,
`L2::RESAMPLE_TARGET_PERIOD`, `L2::RESAMPLE_TRADE_HRS_PER_DAY` and
`L2::RESAMPLE_EMA_DAYS_PERIOD` are not defined under `src/`, and the spec
(§4.5) names them (minimum gap, target bar count, EMA `α = 2/(N+1)`) without
fixing values; they are carried as a configuration record.  The derived members
`expected_samples_per_day_`, `threshold_tolerance_` and `ema_alpha_` appear in
derived form. -/
structure ResampleConfig where
  min_period : Nat
  expected_samples_per_day : Int
  threshold_tolerance : Int
  ema_alpha : Rat

/-- The mutable state of `class ResampleRunBar`. -/
structure ResampleRunBar where
  accum_buy : Nat
  accum_sell : Nat
  threshold_ema : Rat
  threshold_daily : Rat
  last_emit_timestamp : Nat
  last_hour : Nat
  daily_labels : List Bool
  daily_volumes : List Nat
  daily_bar_count : Nat
  deriving Repr, DecidableEq

/-- `accumulate_volume`. -/
def accumulate_volume (st : ResampleRunBar) (is_bid : Bool) (volume : Nat) : ResampleRunBar :=
  if is_bid then { st with accum_buy := st.accum_buy + volume }
  else { st with accum_sell := st.accum_sell + volume }

/-- `uint32_t` subtraction (wrap-around modulo `2^32`). -/
def u32sub (a b : Nat) : Nat := (a % 4294967296 + 4294967296 - b % 4294967296) % 4294967296

/-- `should_emit_bar`: volume threshold (EMA clamped below at `0`) and the time
guard on the difference of the second-granularity packed timestamps. -/
def should_emit_bar (cfg : ResampleConfig) (st : ResampleRunBar) (timestamp : Nat) : Bool :=
  let max_side := max st.accum_buy st.accum_sell
  let threshold := max st.threshold_ema 0
  if (max_side : Rat) < threshold then false
  else
    let time_diff_seconds := u32sub (timestamp / 256) (st.last_emit_timestamp / 256)
    if time_diff_seconds < cfg.min_period then false
    else true

/-- `simulate_sample_count`'s loop over yesterday's `(label, volume)` tape. -/
def simulate_go (threshold : Rat) : List (Bool × Nat) → Rat → Rat → Int → Int
  | [], _, _, bar_count => bar_count
  | (lbl, v) :: rest, accum_buy, accum_sell, bar_count =>
    let accum_buy1 := if lbl then accum_buy + (v : Rat) else accum_buy
    let accum_sell1 := if lbl then accum_sell else accum_sell + (v : Rat)
    if threshold ≤ accum_buy1 ∨ threshold ≤ accum_sell1 then
      simulate_go threshold rest 0 0 (bar_count + 1)
    else
      simulate_go threshold rest accum_buy1 accum_sell1 bar_count

/-- `simulate_sample_count`. -/
def simulate_sample_count (st : ResampleRunBar) (threshold : Rat) : Int :=
  simulate_go threshold (st.daily_labels.zip st.daily_volumes) 0 0 0

/-- The binary-search loop of `compute_optimal_threshold` (`max_iterations = 20`). -/
def threshold_search (cfg : ResampleConfig) (st : ResampleRunBar) :
    Nat → Rat → Rat → Rat
  | 0, threshold_min, threshold_max => (threshold_min + threshold_max) / 2
  | iter + 1, threshold_min, threshold_max =>
    let threshold_mid := (threshold_min + threshold_max) / 2
    let sample_count := simulate_sample_count st threshold_mid
    if (sample_count - cfg.expected_samples_per_day).natAbs ≤ cfg.threshold_tolerance.toNat ∨
       threshold_max - threshold_min < 100 then threshold_mid
    else if sample_count > cfg.expected_samples_per_day then
      threshold_search cfg st iter threshold_mid threshold_max
    else
      threshold_search cfg st iter threshold_min threshold_mid

/-- `compute_optimal_threshold`. -/
def compute_optimal_threshold (cfg : ResampleConfig) (st : ResampleRunBar) : Rat :=
  if st.daily_labels = [] then 0
  else
    let threshold_min : Rat := (st.daily_volumes.foldr Nat.min (st.daily_volumes.headD 0) : Nat)
    let threshold_max : Rat := ((st.daily_volumes.map (fun v => (v : Rat))).sum)
    threshold_search cfg st 20 threshold_min threshold_max

/-- `on_new_day`. -/
def on_new_day (cfg : ResampleConfig) (st : ResampleRunBar) : ResampleRunBar :=
  let st1 := { st with daily_bar_count := 1 }
  let st2 :=
    if st1.daily_labels = [] then st1
    else
      let d := compute_optimal_threshold cfg st1
      { st1 with threshold_daily := d,
                 threshold_ema :=
                   if st1.threshold_ema < 0 then d
                   else cfg.ema_alpha * d + (1 - cfg.ema_alpha) * st1.threshold_ema }
  { st2 with daily_labels := [], daily_volumes := [] }

/-- `emit_bar`. -/
def emit_bar (cfg : ResampleConfig) (st : ResampleRunBar) (timestamp : Nat)
    (is_bid : Bool) (volume : Nat) : ResampleRunBar :=
  let st1 := { st with accum_buy := 0, accum_sell := 0,
                       last_emit_timestamp := timestamp,
                       daily_bar_count := st.daily_bar_count + 1 }
  let hour := timestamp / 16777216 % 256
  let st2 := if hour = 9 ∧ st1.last_hour ≠ 9 then on_new_day cfg st1 else st1
  let st3 := { st2 with last_hour := hour }
  { st3 with daily_labels := st3.daily_labels ++ [is_bid],
             daily_volumes := st3.daily_volumes ++ [volume] }

/-- `resample`: accumulate, test the emit condition, and either retain the
state (`false`) or emit (`true`). -/
def resample (cfg : ResampleConfig) (st : ResampleRunBar) (timestamp : Nat)
    (is_bid : Bool) (volume : Nat) : Bool × ResampleRunBar :=
  let st1 := accumulate_volume st is_bid volume
  if should_emit_bar cfg st1 timestamp = false then (false, st1)
  else (true, emit_bar cfg st1 timestamp is_bid volume)

/-- Modelled from the spec (§4.5): "elapsed seconds since last emit ≥
`min_gap`" — elapsed time measured in real seconds, computed from the packed
`(h, m, s)` fields. -/
def spec_elapsed_seconds (timestamp last_emit : Nat) : Nat :=
  (hourOf timestamp * 3600 + minuteOf timestamp * 60 + timestamp / 256 % 256) -
  (hourOf last_emit * 3600 + minuteOf last_emit * 60 + last_emit / 256 % 256)

/-- Modelled from the spec (§4.5, "Emit condition"): emit exactly when
`max(accum_buy, accum_sell) ≥ threshold_ema` and the elapsed seconds since the
last emission are at least `min_gap`. -/
def spec_should_emit (cfg : ResampleConfig) (st : ResampleRunBar) (timestamp : Nat) : Bool :=
  if st.threshold_ema ≤ (max st.accum_buy st.accum_sell : Rat) ∧
     cfg.min_period ≤ spec_elapsed_seconds timestamp st.last_emit_timestamp
  then true else false

/-!  C3: states whose deferred queue holds no `CALL_AUCTION` entry. -/

/-- `true` iff no deferred entry has reason `CALL_AUCTION`. -/
def no_call_auction_deferred (s : EngineState) : Bool :=
  s.deferred_queue.all (fun e => !(e.2.reason == DeferReason.CALL_AUCTION))

/-- First event of the C3 counterexample: a bid maker at 09:20 (deferred with
reason `CALL_AUCTION`). -/
def c3_ev1 : L2Order := ⟨9, 20, 0, 0, 0, 0, 990, 100, 1, 0⟩

/-- Second event of the C3 counterexample: a bid maker at 09:31 — the first
event at or after 09:30. -/
def c3_ev2 : L2Order := ⟨9, 31, 0, 0, 0, 0, 1000, 5, 2, 0⟩

/-- First event of the C4 counterexample: a cancel for the not-yet-seen bid
order 1, deferred as `OUT_OF_ORDER` with signed volume `-8`. -/
def c4_ev1 : L2Order := ⟨10, 0, 0, 0, 1, 0, 1000, 8, 1, 0⟩

/-- Second event of the C4 counterexample: the maker for bid order 1 with
volume `5`; the summed signed volume is `5 + (-8) = -3`, a sign flip. -/
def c4_ev2 : L2Order := ⟨10, 0, 0, 0, 0, 0, 1000, 5, 1, 0⟩

/-- The C8 witness state: visible asks at 1000 and 1001 only. -/
def c8_state : EngineState :=
  { initState with
      levels := [⟨1000, -4, 1, [⟨-4, 7⟩]⟩, ⟨1001, -3, 1, [⟨-3, 8⟩]⟩],
      order_lookup := [(7, ⟨1000, 0⟩), (8, ⟨1001, 0⟩)],
      visible := [1000, 1001], best_bid := 0, best_ask := 1000,
      tob_dirty := false }

/-- The C8 witness event: a bid taker fully consuming the resting ask 7 at
price 1000. -/
def c8_taker : L2Order := ⟨10, 0, 0, 0, 3, 0, 1000, 4, 0, 7⟩

/-- The C7 counterexample configuration: minimum gap of 2 seconds. -/
def c7_cfg : ResampleConfig := ⟨2, 100, 5, 1 / 10⟩

/-- The C7 counterexample state: EMA threshold 10, last emission at
09:30:59.000 (packed `152976128`). -/
def c7_st : ResampleRunBar := ⟨0, 0, 10, 0, 152976128, 9, [], [], 0⟩

/-!  C1: the book invariants, proved inductively over event streams. -/

/-- Sum of the order quantities stored at a level. -/
def ordersSum (l : List Order) : Int := (l.map Order.qty).sum

/-- The three per-level invariant clauses of the claim: cached sum, cached
count, and the visible-bitmap bit. -/
def LevelGood (vis : List Nat) (L : Level) : Prop :=
  ordersSum L.orders = L.net_quantity ∧ L.order_count = L.orders.length ∧
  (L.price ∈ vis ↔ L.net_quantity ≠ 0)

/-- The inductive invariant: the claim's clauses plus the auxiliary structure
needed to push them through `apply_volume_change` (distinct level prices,
unique lookup keys, and the two-way correspondence between lookup entries and
stored orders). -/
def Inv (s : EngineState) : Prop :=
  (∀ L ∈ s.levels, LevelGood s.visible L) ∧
  (s.levels.map Level.price).Nodup ∧
  (s.order_lookup.map Prod.fst).Nodup ∧
  (∀ e ∈ s.order_lookup, ∃ L, find_level s e.2.price = some L ∧
      ∃ ord, L.orders.get? e.2.index = some ord ∧ ord.id = e.1) ∧
  (∀ L ∈ s.levels, ∀ i ord, L.orders.get? i = some ord →
      lookupFind s.order_lookup ord.id = some ⟨L.price, i⟩)

/-- Executable check of exactly the claim's invariant clauses. -/
def check_claim_invariant (s : EngineState) : Bool :=
  s.levels.all (fun L =>
    (ordersSum L.orders == L.net_quantity) &&
    (L.order_count == L.orders.length) &&
    (s.visible.contains L.price == (L.net_quantity != 0))) &&
  s.order_lookup.all (fun e =>
    match find_level s e.2.price with
    | some L =>
      match L.orders.get? e.2.index with
      | some ord => ord.id == e.1
      | none => false
    | none => false)

/-- Observable final book state (price levels, lookup, deferred queue, bitmap,
TOB). -/
def book_observation (s : EngineState) :
    List Level × List (Nat × Location) × List (Nat × DeferredOrder) × List Nat × Nat × Nat :=
  (s.levels, s.order_lookup, s.deferred_queue, s.visible, s.best_bid, s.best_ask)

/-!  Projection lemmas: which state components each helper operation leaves
untouched. -/

theorem set_level_deferred (s : EngineState) (L : Level) :
    (set_level s L).deferred_queue = s.deferred_queue := rfl

theorem add_visible_price_deferred (s : EngineState) (p : Nat) :
    (add_visible_price s p).deferred_queue = s.deferred_queue := by
  unfold add_visible_price; split <;> rfl

theorem remove_visible_price_deferred (s : EngineState) (p : Nat) :
    (remove_visible_price s p).deferred_queue = s.deferred_queue := by
  unfold remove_visible_price; split <;> rfl

theorem update_visible_price_deferred (s : EngineState) (L : Level) :
    (update_visible_price s L).deferred_queue = s.deferred_queue := by
  unfold update_visible_price
  split
  · exact add_visible_price_deferred s L.price
  · exact remove_visible_price_deferred s L.price

theorem remove_level_deferred (s : EngineState) (p : Nat) :
    (remove_level s p).deferred_queue = s.deferred_queue := by
  unfold remove_level
  rw [remove_visible_price_deferred]

/-- `apply_volume_change` never touches the deferred queue. -/
theorem apply_volume_change_deferred (s : EngineState) (t p : Nat) (v : Int) :
    ((apply_volume_change s t p v).1).deferred_queue = s.deferred_queue := by
  unfold apply_volume_change
  split
  next loc heq =>
    split
    next => rfl
    next L heqL =>
      split
      next => rfl
      next ord heqO =>
        dsimp only
        split
        · split
          all_goals
            simp only [remove_level_deferred, update_visible_price_deferred, set_level_deferred]
        · simp only [update_visible_price_deferred, set_level_deferred]
  next heq =>
    split
    all_goals simp only [update_visible_price_deferred, set_level_deferred]

theorem update_tob_after_trade_deferred (s : EngineState) (o : L2Order) (b : Bool) (p : Nat) :
    (update_tob_after_trade s o b p).deferred_queue = s.deferred_queue := by
  unfold update_tob_after_trade
  dsimp only
  repeat' split
  all_goals rfl

theorem flush_apply_deferred (l : List (Nat × DeferredOrder)) (s : EngineState) :
    (flush_apply s l).deferred_queue = s.deferred_queue := by
  induction l generalizing s with
  | nil => rfl
  | cons e rest ih =>
    unfold flush_apply
    rw [ih, apply_volume_change_deferred]

/-!  Claim theorems: C2, C5, C6, C9, C10. -/

/-- C2: the round-trip law `decode(encode(x)) == x` fails in the code: every
`decompress` starts parsing at byte offset `0` and never consumes the
`(num_values, value_size_bytes)` header that `compress` wrote (the dictionary
and bit-pack variants even assert on `stored_num_values` / `stored_value_size`,
names that are never read).  For the RLE codec on the 1-byte column `[5, 5]`
the decoder reads the header's first byte `2` as a run length and the next
header byte `0` as the run's value, returning `[0, 0]`. -/
theorem rle_roundtrip_fails_on_header :
    rle_decompress (rle_compress [5, 5] 2 1) 2 1 = [0, 0] ∧
    rle_decompress (rle_compress [5, 5] 2 1) 2 1 ≠ [5, 5] := by
  constructor
  · rfl
  · decide

/-- C5: an event whose derived `signed_volume` is zero, whose derived
`target_id` is zero, or whose type is outside {maker, cancel, taker} (such as
`change` = 2) makes `update_lob` return `false` with the engine state
unchanged. -/
theorem update_lob_ignores_degenerate_events (s : EngineState) (o : L2Order)
    (h : get_signed_volume o = 0 ∨ get_target_id o = 0 ∨
         (o.order_type ≠ MAKER ∧ o.order_type ≠ CANCEL ∧ o.order_type ≠ TAKER)) :
    update_lob s o = (false, s) := by
  have hz : get_signed_volume o = 0 ∨ get_target_id o = 0 := by
    rcases h with h | h | ⟨h0, h1, h3⟩
    · exact Or.inl h
    · exact Or.inr h
    · left
      unfold get_signed_volume
      dsimp only
      split
      all_goals simp_all [MAKER, CANCEL, TAKER]
  unfold update_lob
  dsimp only
  split
  · rfl
  · next hcond => exact absurd hz hcond

/-- Witness for C5: a `change` (type 2) event on the fresh engine. -/
theorem update_lob_ignores_degenerate_events_witness :
    update_lob initState ⟨9, 30, 0, 0, 2, 0, 1000, 5, 7, 0⟩ = (false, initState) :=
  update_lob_ignores_degenerate_events initState ⟨9, 30, 0, 0, 2, 0, 1000, 5, 7, 0⟩
    (Or.inl (by decide))

/-- C6: `cs_check_ready` returns `true` exactly when every time-series
worker's progress counter for the `(date, level)` row is strictly greater than
the queried time index (equivalently, the minimum over workers exceeds it). -/
theorem cs_check_ready_iff_progress (ts_progress : List Nat) (t : Nat) :
    cs_check_ready ts_progress t = true ↔ ∀ p ∈ ts_progress, t < p := by
  induction ts_progress with
  | nil => simp [cs_check_ready]
  | cons p rest ih =>
    by_cases h : p ≤ t
    · simp only [cs_check_ready, if_pos h, List.mem_cons]
      constructor
      · intro hf; exact absurd hf (by simp)
      · intro hall
        exact absurd (hall p (Or.inl rfl)) (by omega)
    · simp only [cs_check_ready, if_neg h, ih, List.mem_cons]
      constructor
      · intro hall q hq
        rcases hq with hq | hq
        · omega
        · exact hall q hq
      · intro hall q hq
        exact hall q (Or.inr hq)

/-- C9 counterexample: `clear()` does not return normally — with the
`DEBUG_SINGLE_DAY` switch set to `1` in the source it calls `exit(1)` after
resetting the members, so no engine remains for the next trading day. -/
theorem clear_exits_under_debug_single_day : clear initState = none := rfl

/-- C9 (amended): `clear()` resets all price levels, the order lookup, the
deferred queue, the visible-price bitmap and the cached TOB
(`best_bid = best_ask = 0`), but then — `DEBUG_SINGLE_DAY` being set to `1` —
terminates the process via `exit(1)` instead of returning for the next day. -/
theorem clear_empties_all_components (s : EngineState) :
    (clear_reset s).levels = [] ∧ (clear_reset s).order_lookup = [] ∧
    (clear_reset s).deferred_queue = [] ∧ (clear_reset s).visible = [] ∧
    (clear_reset s).best_bid = 0 ∧ (clear_reset s).best_ask = 0 ∧
    clear s = none :=
  ⟨rfl, rfl, rfl, rfl, rfl, rfl, rfl⟩

/-- Flushing with an empty deferred queue is a no-op. -/
theorem flush_call_auction_deferred_empty (s : EngineState)
    (h : s.deferred_queue = []) : flush_call_auction_deferred s = s := by
  unfold flush_call_auction_deferred
  rw [h]
  show flush_apply { s with deferred_queue := ([] : List (Nat × DeferredOrder)) } [] = s
  unfold flush_apply
  rw [← h]

/-- On a fresh engine the residual value of the process-wide
`static bool was_in_matching_period` cannot influence the first `process`
call: the conditional flush it may trigger acts on an empty queue. -/
theorem process_residual_flag (b : Bool) (o : L2Order) :
    process (initStateWith b) o = process (initStateWith false) o := by
  cases b
  · rfl
  · unfold process
    have h : ∀ c : Bool, ∀ st : EngineState, st.deferred_queue = [] →
        (if c = true then flush_call_auction_deferred st else st) = st := by
      intro c st hst
      cases c
      · rfl
      · simpa using flush_call_auction_deferred_empty st hst
    simp only [initStateWith, initState]
    rw [h, h] <;> rfl

/-!  Association-list facts used below. -/

theorem lookupFind_mem {α : Type} {m : List (Nat × α)} {k : Nat} {v : α}
    (h : lookupFind m k = some v) : (k, v) ∈ m := by
  unfold lookupFind at h
  rcases Option.map_eq_some'.mp h with ⟨e, he, hev⟩
  have hmem := List.mem_of_find?_eq_some he
  have hpred := List.find?_some he
  have hk : e.1 = k := by simpa using hpred
  have : e = (k, v) := by
    cases e
    simp_all
  rw [← this]
  exact hmem

theorem all_eraseKey {α : Type} {m : List (Nat × α)} {f : Nat × α → Bool} (k : Nat)
    (h : m.all f = true) : (eraseKey m k).all f = true := by
  rw [List.all_eq_true] at h ⊢
  intro e he
  exact h e (List.mem_of_mem_filter he)

theorem all_setKey {α : Type} {m : List (Nat × α)} {f : Nat × α → Bool} {k : Nat} {v : α}
    (h : m.all f = true) (hv : f (k, v) = true) : (setKey m k v).all f = true := by
  rw [List.all_eq_true] at h ⊢
  intro e he
  unfold setKey at he
  rcases List.mem_map.mp he with ⟨e0, he0, heq⟩
  by_cases hk : e0.1 == k
  · rw [if_pos hk] at heq
    rw [← heq]
    exact hv
  · rw [if_neg hk] at heq
    rw [← heq]
    exact h e0 he0

theorem lookupFind_of_all {α : Type} {m : List (Nat × α)} {f : Nat × α → Bool} {k : Nat} {v : α}
    (h : m.all f = true) (hf : lookupFind m k = some v) : f (k, v) = true :=
  List.all_eq_true.mp h (k, v) (lookupFind_mem hf)

theorem lookupFind_nonempty {α : Type} {m : List (Nat × α)} {k : Nat} {v : α}
    (h : lookupFind m k = some v) : m ≠ [] := by
  intro hnil
  rw [hnil] at h
  simp [lookupFind] at h

theorem no_ca_of_queue_eq {s' s : EngineState}
    (hq : s'.deferred_queue = s.deferred_queue)
    (h : no_call_auction_deferred s = true) : no_call_auction_deferred s' = true := by
  unfold no_call_auction_deferred at *
  rw [hq]
  exact h

theorem no_ca_erase {s : EngineState} (k : Nat) (h : no_call_auction_deferred s = true) :
    no_call_auction_deferred { s with deferred_queue := eraseKey s.deferred_queue k } = true :=
  all_eraseKey k h

theorem no_ca_setKey {s : EngineState} {k : Nat} {v : DeferredOrder}
    (hv : (v.reason == DeferReason.CALL_AUCTION) = false)
    (h : no_call_auction_deferred s = true) :
    no_call_auction_deferred { s with deferred_queue := setKey s.deferred_queue k v } = true :=
  all_setKey h (by simpa using hv)

theorem no_ca_enqueue {s : EngineState} {k : Nat} {d : DeferredOrder}
    (hd : (d.reason == DeferReason.CALL_AUCTION) = false)
    (h : no_call_auction_deferred s = true) :
    no_call_auction_deferred (enqueue_deferred s k d) = true := by
  unfold enqueue_deferred
  split
  · exact h
  · unfold no_call_auction_deferred at *
    dsimp only
    rw [List.all_append]
    simp [h, hd]

theorem no_ca_cleanup {s : EngineState} (o : L2Order) (tid : Nat)
    (h : no_call_auction_deferred s = true) :
    no_call_auction_deferred (cleanup_special s o tid) = true := by
  unfold cleanup_special
  dsimp only
  repeat' split
  all_goals first
    | exact h
    | exact no_ca_erase _ h

/-- After `flush_call_auction_deferred` the queue holds no `CALL_AUCTION`
entry. -/
theorem no_ca_flush (s : EngineState) :
    no_call_auction_deferred (flush_call_auction_deferred s) = true := by
  unfold flush_call_auction_deferred no_call_auction_deferred
  rw [flush_apply_deferred]
  dsimp only
  rw [List.all_eq_true]
  intro e he
  exact (List.mem_filter.mp he).2

/-- Outside both auction windows, `update_lob` never adds a `CALL_AUCTION`
entry to the deferred queue. -/
theorem update_lob_deferred_no_ca (s : EngineState) (o : L2Order) (sv : Int) (tid : Nat)
    (found ica : Bool) (hica : ica = false)
    (hmp : is_call_auction_matching_period s.curr_tick = false)
    (h : no_call_auction_deferred s = true) :
    no_call_auction_deferred (update_lob_deferred s o sv tid found ica).2 = true := by
  unfold update_lob_deferred
  dsimp only
  subst hica
  rw [hmp]
  split
  · -- MAKER
    split
    · -- price = 0
      split
      · -- existing deferred entry
        split
        · exact no_ca_erase tid h
        · exact no_ca_enqueue rfl (no_ca_erase tid h)
      · exact no_ca_enqueue rfl h
    · -- price ≠ 0; in_call_auction_extended = false || false = false
      rw [if_neg (by simp)]
      split
      · split
        · exact no_ca_erase tid h
        · exact no_ca_of_queue_eq (apply_volume_change_deferred _ tid o.price _)
            (no_ca_erase tid h)
      · exact no_ca_of_queue_eq (apply_volume_change_deferred _ tid o.price _) h
  · split
    · -- TAKER
      split
      · -- deferred hit
        next d hd =>
        apply no_ca_cleanup
        split
        · exact no_ca_erase tid h
        · apply no_ca_setKey _ h
          have := lookupFind_of_all h hd
          simpa using this
      · split
        · -- book hit
          apply no_ca_cleanup
          apply no_ca_of_queue_eq (update_tob_after_trade_deferred _ o _ _)
          exact no_ca_of_queue_eq (apply_volume_change_deferred _ tid _ _) h
        · exact no_ca_enqueue rfl h
    · split
      · -- CANCEL
        split
        · -- deferred hit
          next d hd =>
          split
          · exact no_ca_erase tid h
          · apply no_ca_setKey _ h
            have := lookupFind_of_all h hd
            simpa using this
        · split
          · exact no_ca_of_queue_eq (apply_volume_change_deferred _ tid _ _) h
          · apply no_ca_enqueue _ h
            split
            all_goals rfl
      · exact h

theorem update_lob_no_ca (s : EngineState) (o : L2Order)
    (hmp : is_call_auction_matching_period s.curr_tick = false)
    (hca : is_call_auction_period s.curr_tick = false)
    (h : no_call_auction_deferred s = true) :
    no_call_auction_deferred (update_lob s o).2 = true := by
  unfold update_lob
  dsimp only
  split
  · exact h
  · split
    · split
      · apply no_ca_of_queue_eq (update_tob_after_trade_deferred _ o _ _)
        exact no_ca_of_queue_eq (apply_volume_change_deferred _ _ _ _) h
      · exact no_ca_of_queue_eq (apply_volume_change_deferred _ _ _ _) h
    · split
      · split
        · exact update_lob_deferred_no_ca s o _ _ _ _ hca hmp h
        · exact no_ca_of_queue_eq (apply_volume_change_deferred _ _ _ _) h
      · exact update_lob_deferred_no_ca s o _ _ _ _ hca hmp h

theorem set_level_curr_tick (s : EngineState) (L : Level) :
    (set_level s L).curr_tick = s.curr_tick := rfl

theorem add_visible_price_curr_tick (s : EngineState) (p : Nat) :
    (add_visible_price s p).curr_tick = s.curr_tick := by
  unfold add_visible_price; split <;> rfl

theorem remove_visible_price_curr_tick (s : EngineState) (p : Nat) :
    (remove_visible_price s p).curr_tick = s.curr_tick := by
  unfold remove_visible_price; split <;> rfl

theorem update_visible_price_curr_tick (s : EngineState) (L : Level) :
    (update_visible_price s L).curr_tick = s.curr_tick := by
  unfold update_visible_price
  split
  · exact add_visible_price_curr_tick s L.price
  · exact remove_visible_price_curr_tick s L.price

theorem remove_level_curr_tick (s : EngineState) (p : Nat) :
    (remove_level s p).curr_tick = s.curr_tick := by
  unfold remove_level
  rw [remove_visible_price_curr_tick]

theorem apply_volume_change_curr_tick (s : EngineState) (t p : Nat) (v : Int) :
    ((apply_volume_change s t p v).1).curr_tick = s.curr_tick := by
  unfold apply_volume_change
  split
  next loc heq =>
    split
    next => rfl
    next L heqL =>
      split
      next => rfl
      next ord heqO =>
        dsimp only
        split
        · split
          all_goals
            simp only [remove_level_curr_tick, update_visible_price_curr_tick,
              set_level_curr_tick]
        · simp only [update_visible_price_curr_tick, set_level_curr_tick]
  next heq =>
    split
    all_goals simp only [update_visible_price_curr_tick, set_level_curr_tick]

theorem flush_apply_curr_tick (l : List (Nat × DeferredOrder)) (s : EngineState) :
    (flush_apply s l).curr_tick = s.curr_tick := by
  induction l generalizing s with
  | nil => rfl
  | cons e rest ih =>
    unfold flush_apply
    rw [ih, apply_volume_change_curr_tick]

theorem flush_curr_tick (s : EngineState) :
    (flush_call_auction_deferred s).curr_tick = s.curr_tick := by
  unfold flush_call_auction_deferred
  rw [flush_apply_curr_tick]

/-- C3 counterexample: the stream jumps from 09:20 directly to 09:31 with no
event inside the matching period (09:25-09:30), so the transition-flag flush
never fires: after the first event at or after 09:30 the deferred queue still
holds the 09:20 maker with reason `CALL_AUCTION` at reported price 990,
contradicting the claim that it is removed and applied at that tick. -/
theorem call_auction_entry_survives_the_930_tick :
    lookupFind (process_batch initState [c3_ev1, c3_ev2]).deferred_queue 1 =
      some ⟨100, 990, 152305664, DeferReason.CALL_AUCTION, true⟩ := by decide

/-!  More association-list and level-lookup facts (for C4 and C8). -/

theorem find?_keyed_cons_pos {α : Type} (e : Nat × α) (rest : List (Nat × α)) (k : Nat)
    (h : e.1 = k) : List.find? (fun x => x.1 == k) (e :: rest) = some e := by
  rw [List.find?_cons]
  simp [h]

theorem find?_keyed_cons_neg {α : Type} (e : Nat × α) (rest : List (Nat × α)) (k : Nat)
    (h : e.1 ≠ k) :
    List.find? (fun x => x.1 == k) (e :: rest) = List.find? (fun x => x.1 == k) rest := by
  rw [List.find?_cons, show (e.1 == k) = false by simpa using h]

theorem find?_level_cons_pos (M : Level) (rest : List Level) (p : Nat) (h : M.price = p) :
    List.find? (fun L => L.price == p) (M :: rest) = some M := by
  rw [List.find?_cons]
  simp [h]

theorem find?_level_cons_neg (M : Level) (rest : List Level) (p : Nat) (h : M.price ≠ p) :
    List.find? (fun L => L.price == p) (M :: rest) =
    List.find? (fun L => L.price == p) rest := by
  rw [List.find?_cons, show (M.price == p) = false by simpa using h]

theorem lookupFind_eraseKey_self {α : Type} (m : List (Nat × α)) (k : Nat) :
    lookupFind (eraseKey m k) k = none := by
  unfold lookupFind eraseKey
  rw [Option.map_eq_none']
  rw [List.find?_eq_none]
  intro e he
  have := (List.mem_filter.mp he).2
  simpa using this

theorem lookupFind_eraseKey_ne {α : Type} (m : List (Nat × α)) (k q : Nat) (h : q ≠ k) :
    lookupFind (eraseKey m k) q = lookupFind m q := by
  induction m with
  | nil => rfl
  | cons e rest ih =>
    unfold eraseKey at *
    by_cases hek : e.1 = k
    · rw [List.filter_cons, if_neg (by simp [hek])]
      rw [ih]
      unfold lookupFind
      rw [find?_keyed_cons_neg e rest q (by omega)]
    · rw [List.filter_cons, if_pos (by simp [hek])]
      by_cases heq : e.1 = q
      · unfold lookupFind
        rw [find?_keyed_cons_pos _ _ _ heq, find?_keyed_cons_pos _ _ _ heq]
      · unfold lookupFind at *
        rw [find?_keyed_cons_neg _ _ _ heq, find?_keyed_cons_neg _ _ _ heq]
        exact ih

theorem lookupFind_setKey_self {α : Type} {m : List (Nat × α)} {k : Nat} {w : α} (v : α)
    (h : lookupFind m k = some w) : lookupFind (setKey m k v) k = some v := by
  induction m with
  | nil => simp [lookupFind] at h
  | cons e rest ih =>
    by_cases hek : e.1 = k
    · unfold setKey lookupFind
      rw [List.map_cons, if_pos (by simp [hek])]
      rw [find?_keyed_cons_pos (k, v) _ k rfl]
      rfl
    · unfold setKey lookupFind at *
      rw [List.map_cons, if_neg (by simp [hek])]
      rw [find?_keyed_cons_neg _ _ _ hek] at h
      rw [find?_keyed_cons_neg _ _ _ hek]
      exact ih h

/-- `cleanup_special` never erases the taker's target entry (it only erases
`self_order_id ≠ target_id`). -/
theorem cleanup_special_lookupFind_target (s : EngineState) (o : L2Order) (tid : Nat) :
    lookupFind (cleanup_special s o tid).deferred_queue tid =
    lookupFind s.deferred_queue tid := by
  unfold cleanup_special
  dsimp only
  generalize (if o.order_dir = 0 then o.bid_order_id else o.ask_order_id) = sid
  by_cases hc : sid ≠ 0 ∧ sid ≠ tid
  · rw [if_pos hc]
    cases hfind : lookupFind s.deferred_queue sid with
    | none => rfl
    | some sd =>
      show lookupFind (if sd.reason = DeferReason.SPECIAL_MAKER then _ else s).deferred_queue
            tid = _
      by_cases hr : sd.reason = DeferReason.SPECIAL_MAKER
      · rw [if_pos hr]
        exact lookupFind_eraseKey_ne _ _ _ fun hh => hc.2 hh.symm
      · rw [if_neg hr]
  · rw [if_neg hc]

theorem find_level_eq_of_levels {s' s : EngineState} (p : Nat) (h : s'.levels = s.levels) :
    find_level s' p = find_level s p := by
  unfold find_level
  rw [h]

theorem add_visible_price_levels (s : EngineState) (p : Nat) :
    (add_visible_price s p).levels = s.levels := by
  unfold add_visible_price; split <;> rfl

theorem remove_visible_price_levels (s : EngineState) (p : Nat) :
    (remove_visible_price s p).levels = s.levels := by
  unfold remove_visible_price; split <;> rfl

theorem update_visible_price_levels (s : EngineState) (L : Level) :
    (update_visible_price s L).levels = s.levels := by
  unfold update_visible_price
  split
  · exact add_visible_price_levels s L.price
  · exact remove_visible_price_levels s L.price

theorem find?_map_set {l : List Level} {p : Nat} {L : Level} (L1 : Level)
    (h : l.find? (fun M => M.price == p) = some L) (hp : L1.price = L.price) :
    (l.map (fun M => if M.price == L1.price then L1 else M)).find?
      (fun M => M.price == p) = some L1 := by
  have hLp : L.price = p := by simpa using List.find?_some h
  induction l with
  | nil => simp at h
  | cons M rest ih =>
    by_cases hM : M.price = p
    · rw [find?_level_cons_pos _ _ _ hM] at h
      have hML : M = L := by injection h
      rw [List.map_cons, if_pos (by simp [hML, hp])]
      rw [find?_level_cons_pos _ _ _ (by omega)]
    · rw [find?_level_cons_neg _ _ _ hM] at h
      rw [List.map_cons, if_neg (by simp [hp, hLp, hM])]
      rw [find?_level_cons_neg _ _ _ hM]
      exact ih h

theorem find?_append_none {l : List Level} {p : Nat} (L1 : Level)
    (h : l.find? (fun M => M.price == p) = none) (hp : L1.price = p) :
    (l ++ [L1]).find? (fun M => M.price == p) = some L1 := by
  induction l with
  | nil => exact find?_level_cons_pos L1 [] p hp
  | cons M rest ih =>
    rw [List.find?_eq_none] at h
    have hM : M.price ≠ p := by
      have := h M (List.mem_cons_self M rest)
      simpa using this
    rw [List.cons_append, find?_level_cons_neg _ _ _ hM]
    exact ih (List.find?_eq_none.mpr (fun x hx => h x (List.mem_cons_of_mem M hx)))

/-- The create branch of `apply_volume_change`: when the target id has no
lookup entry, a placeholder order `{signed_volume, target_id}` is created at
the level of the given price (creating the level if needed). -/
theorem apply_volume_change_create (s : EngineState) (tid p : Nat) (v : Int)
    (hl : lookupFind s.order_lookup tid = none) :
    ∃ L1, find_level (apply_volume_change s tid p v).1 p = some L1 ∧
          (⟨v, tid⟩ : Order) ∈ L1.orders := by
  unfold apply_volume_change
  rw [hl]
  dsimp only
  split
  next L hL =>
    refine ⟨Level.add L ⟨v, tid⟩, ?_, ?_⟩
    · unfold find_level
      rw [update_visible_price_levels]
      show ((set_level s (Level.add L ⟨v, tid⟩)).levels).find? _ = _
      unfold set_level
      dsimp only
      exact find?_map_set _ hL rfl
    · exact List.mem_append_right _ (List.mem_singleton.mpr rfl)
  next hnone =>
    refine ⟨Level.add ⟨p, 0, 0, []⟩ ⟨v, tid⟩, ?_, ?_⟩
    · unfold find_level
      rw [update_visible_price_levels]
      exact find?_append_none _ hnone rfl
    · exact List.mem_append_right _ (List.mem_singleton.mpr rfl)

/-- When the deferred queue is nonempty both fast paths are skipped and
`update_lob` runs `update_lob_deferred`. -/
theorem update_lob_slow (s : EngineState) (o : L2Order)
    (hsv : get_signed_volume o ≠ 0) (htid : get_target_id o ≠ 0)
    (hq : s.deferred_queue ≠ []) :
    update_lob s o =
      update_lob_deferred s o (get_signed_volume o) (get_target_id o)
        (lookupFind s.order_lookup (get_target_id o)).isSome
        (is_call_auction_period s.curr_tick) := by
  unfold update_lob
  dsimp only
  rw [if_neg (by tauto)]
  rw [if_neg (by simp [hq])]
  rw [if_neg (by simp [hq])]

/-- The TAKER/CANCEL arms of the unified deduction rule on the deferred
queue. -/
theorem update_lob_deferred_taker_cancel (s : EngineState) (o : L2Order) (sv : Int)
    (tid : Nat) (found ica : Bool) (d : DeferredOrder)
    (htype : o.order_type = TAKER ∨ o.order_type = CANCEL)
    (hq : lookupFind s.deferred_queue tid = some d) :
    ((d.signed_volume + sv = 0 ∨ (d.signed_volume > 0 ∧ d.signed_volume + sv ≤ 0) ∨
      (d.signed_volume < 0 ∧ d.signed_volume + sv ≥ 0)) →
        lookupFind (update_lob_deferred s o sv tid found ica).2.deferred_queue tid = none) ∧
    (¬(d.signed_volume + sv = 0 ∨ (d.signed_volume > 0 ∧ d.signed_volume + sv ≤ 0) ∨
       (d.signed_volume < 0 ∧ d.signed_volume + sv ≥ 0)) →
        lookupFind (update_lob_deferred s o sv tid found ica).2.deferred_queue tid =
          some { d with signed_volume := d.signed_volume + sv }) := by
  unfold update_lob_deferred
  dsimp only
  rcases htype with ht | ht
  · rw [ht]
    rw [if_neg (by decide), if_pos rfl, hq]
    dsimp only
    constructor
    · intro hful
      rw [if_pos hful]
      rw [cleanup_special_lookupFind_target]
      exact lookupFind_eraseKey_self _ _
    · intro hful
      rw [if_neg hful]
      rw [cleanup_special_lookupFind_target]
      exact lookupFind_setKey_self _ hq
  · rw [ht]
    rw [if_neg (by decide), if_neg (by decide), if_pos rfl, hq]
    dsimp only
    constructor
    · intro hful
      rw [if_pos hful]
      exact lookupFind_eraseKey_self _ _
    · intro hful
      rw [if_neg hful]
      exact lookupFind_setKey_self _ hq

/-- The MAKER arm of the unified deduction rule in continuous session: the
queue entry is erased unconditionally; a zero sum creates nothing, a nonzero
sum (of either sign) is created in the book as a placeholder order. -/
theorem update_lob_deferred_maker_flush (s : EngineState) (o : L2Order) (sv : Int)
    (tid : Nat) (found ica : Bool) (d : DeferredOrder)
    (htype : o.order_type = MAKER) (hp : o.price ≠ 0) (hica : ica = false)
    (hmp : is_call_auction_matching_period s.curr_tick = false)
    (hq : lookupFind s.deferred_queue tid = some d) :
    lookupFind (update_lob_deferred s o sv tid found ica).2.deferred_queue tid = none ∧
    (sv + d.signed_volume = 0 →
      (update_lob_deferred s o sv tid found ica).2 =
        { s with deferred_queue := eraseKey s.deferred_queue tid }) ∧
    (sv + d.signed_volume ≠ 0 → lookupFind s.order_lookup tid = none →
      ∃ L1, find_level (update_lob_deferred s o sv tid found ica).2 o.price = some L1 ∧
            (⟨sv + d.signed_volume, tid⟩ : Order) ∈ L1.orders) := by
  unfold update_lob_deferred
  dsimp only
  rw [if_pos htype, if_neg hp, hica, hmp]
  rw [if_neg (by simp)]
  rw [hq]
  dsimp only
  by_cases hz : sv + d.signed_volume = 0
  · rw [if_pos hz]
    refine ⟨lookupFind_eraseKey_self _ _, fun _ => rfl, fun hnz => absurd hz hnz⟩
  · rw [if_neg hz]
    refine ⟨?_, fun hzz => absurd hzz hz, ?_⟩
    · rw [show ((apply_volume_change
          { s with deferred_queue := eraseKey s.deferred_queue tid }
          tid o.price (sv + d.signed_volume)).1).deferred_queue =
          eraseKey s.deferred_queue tid from apply_volume_change_deferred _ _ _ _]
      exact lookupFind_eraseKey_self _ _
    · intro _ hlup
      exact apply_volume_change_create _ tid o.price _ hlup

/-- C4 counterexample: a maker meeting a larger opposite deferred volume has
its sign flipped (`5 + (-8) = -3`), and the claim then calls the maker "fully
consumed"; the code instead creates the flipped-sign residual in the book:
after the two events level 1000 holds the order `{qty := -3, id := 1}`. -/
theorem maker_sign_flip_creates_residual :
    find_level (process_batch initState [c4_ev1, c4_ev2]) 1000 =
      some ⟨1000, -3, 1, [⟨-3, 1⟩]⟩ ∧
    lookupFind (process_batch initState [c4_ev1, c4_ev2]).deferred_queue 1 = none := by
  decide

/-!  C8: TOB advance after a taker empties the best-ask level. -/

/-- The ascending scan returns the least visible price at or above its start
whenever one exists inside its fuel range. -/
theorem next_ask_scan_least (vis : List Nat) :
    ∀ (fuel start q0 : Nat), q0 ∈ vis → start ≤ q0 → q0 < start + fuel →
      next_ask_scan vis fuel start ∈ vis ∧ start ≤ next_ask_scan vis fuel start ∧
      ∀ q ∈ vis, start ≤ q → next_ask_scan vis fuel start ≤ q := by
  intro fuel
  induction fuel with
  | zero => intro start q0 _ h2 h3; omega
  | succ n ih =>
    intro start q0 h1 h2 h3
    unfold next_ask_scan
    by_cases hs : vis.contains start
    · rw [if_pos hs]
      have hmem : start ∈ vis := by simpa using hs
      exact ⟨hmem, Nat.le_refl start, fun q _ hle => hle⟩
    · rw [if_neg hs]
      have hq0 : start + 1 ≤ q0 := by
        rcases Nat.eq_or_lt_of_le h2 with heq | hlt
        · exfalso
          apply hs
          rw [heq]
          simpa using h1
        · omega
      obtain ⟨m1, m2, m3⟩ := ih (start + 1) q0 h1 hq0 (by omega)
      refine ⟨m1, by omega, ?_⟩
      intro q hq hle
      rcases Nat.eq_or_lt_of_le hle with heq | hlt
      · exfalso
        apply hs
        rw [heq]
        simpa using hq
      · exact m3 q hq (by omega)

theorem mem_remove_visible {s : EngineState} {p q : Nat} (hne : q ≠ p)
    (hq : q ∈ s.visible) : q ∈ (remove_visible_price s p).visible := by
  unfold remove_visible_price
  split
  · exact List.mem_filter.mpr ⟨hq, by simpa using hne⟩
  · exact hq

theorem mem_remove_level {s : EngineState} {p q : Nat} (hne : q ≠ p)
    (hq : q ∈ s.visible) : q ∈ (remove_level s p).visible :=
  mem_remove_visible hne hq

theorem cleanup_special_visible (s : EngineState) (o : L2Order) (tid : Nat) :
    (cleanup_special s o tid).visible = s.visible := by
  unfold cleanup_special
  dsimp only
  generalize (if o.order_dir = 0 then o.bid_order_id else o.ask_order_id) = sid
  by_cases hc : sid ≠ 0 ∧ sid ≠ tid
  · rw [if_pos hc]
    cases lookupFind s.deferred_queue sid with
    | none => rfl
    | some sd =>
      show (if sd.reason = DeferReason.SPECIAL_MAKER then _ else s).visible = _
      split <;> rfl
  · rw [if_neg hc]

theorem cleanup_special_best_ask (s : EngineState) (o : L2Order) (tid : Nat) :
    (cleanup_special s o tid).best_ask = s.best_ask := by
  unfold cleanup_special
  dsimp only
  generalize (if o.order_dir = 0 then o.bid_order_id else o.ask_order_id) = sid
  by_cases hc : sid ≠ 0 ∧ sid ≠ tid
  · rw [if_pos hc]
    cases lookupFind s.deferred_queue sid with
    | none => rfl
    | some sd =>
      show (if sd.reason = DeferReason.SPECIAL_MAKER then _ else s).best_ask = _
      split <;> rfl
  · rw [if_neg hc]

/-- A taker that exactly consumes the only order of its level: the
`apply_volume_change` call reports full consumption, and every other visible
price survives. -/
theorem apply_volume_change_single_full (s : EngineState) (tid : Nat) (v : Int)
    (loc : Location) (L : Level) (ord : Order)
    (hloc : lookupFind s.order_lookup tid = some loc)
    (hL : find_level s loc.price = some L)
    (hidx : loc.index = 0) (hord : L.orders = [ord])
    (hcount : L.order_count = 1) (hqty : ord.qty + v = 0) :
    (apply_volume_change s tid loc.price v).2 = true ∧
    (∀ q, q ≠ L.price → q ∈ s.visible →
       q ∈ (apply_volume_change s tid loc.price v).1.visible) := by
  have hget : L.orders.get? loc.index = some ord := by
    rw [hidx, hord]; rfl
  have hrem : Level.remove L loc.index =
      { L with net_quantity := L.net_quantity - ord.qty, orders := [],
               order_count := L.order_count - 1 } := by
    unfold Level.remove
    rw [hget]
    rw [hidx, hord]
    rfl
  unfold apply_volume_change
  rw [hloc]
  dsimp only
  rw [hL]
  dsimp only
  rw [hget]
  dsimp only
  rw [if_pos hqty, hrem]
  rw [if_pos (show L.order_count - 1 = 0 by omega)]
  refine ⟨rfl, ?_⟩
  intro q hne hq
  exact mem_remove_level hne hq

/-- C8: when the targeted level holds exactly the resting order of an arriving
bid-side taker and the taker's volume fully consumes it, the new `best_ask` is
the smallest price strictly above the trade price whose visible-bitmap bit is
set (provided some visible price above the trade price exists in the 16-bit
range). -/
theorem taker_advances_best_ask (s : EngineState) (o : L2Order)
    (loc : Location) (L : Level) (ord : Order) (q0 : Nat)
    (htype : o.order_type = TAKER) (hdir : o.order_dir = 0)
    (hsv : get_signed_volume o ≠ 0) (htid : get_target_id o ≠ 0)
    (hnq : lookupFind s.deferred_queue (get_target_id o) = none)
    (hloc : lookupFind s.order_lookup (get_target_id o) = some loc)
    (hL : find_level s loc.price = some L)
    (hidx : loc.index = 0) (hord : L.orders = [ord])
    (hcount : L.order_count = 1)
    (hqty : ord.qty + get_signed_volume o = 0)
    (hbest : s.best_ask = loc.price)
    (hq0 : q0 ∈ s.visible) (hgt : loc.price < q0) (hlt : q0 < PRICE_RANGE_SIZE) :
    (update_lob s o).2.best_ask ∈ (update_lob s o).2.visible ∧
    loc.price < (update_lob s o).2.best_ask ∧
    ∀ q ∈ (update_lob s o).2.visible, loc.price < q → (update_lob s o).2.best_ask ≤ q := by
  have hLp : L.price = loc.price := by
    have := List.find?_some hL
    simpa using this
  obtain ⟨hfull, hvis⟩ :=
    apply_volume_change_single_full s (get_target_id o) (get_signed_volume o)
      loc L ord hloc hL hidx hord hcount hqty
  have hmain : ∀ s2 : EngineState,
      s2.visible = (apply_volume_change s (get_target_id o) loc.price
        (get_signed_volume o)).1.visible →
      s2.best_ask = next_ask_above (apply_volume_change s (get_target_id o) loc.price
        (get_signed_volume o)).1.visible loc.price →
      s2.best_ask ∈ s2.visible ∧ loc.price < s2.best_ask ∧
        ∀ q ∈ s2.visible, loc.price < q → s2.best_ask ≤ q := by
    intro s2 h2v h2a
    have hq0v : q0 ∈ (apply_volume_change s (get_target_id o) loc.price
        (get_signed_volume o)).1.visible := by
      apply hvis q0 _ hq0
      omega
    obtain ⟨m1, m2, m3⟩ := next_ask_scan_least _
      (PRICE_RANGE_SIZE - (loc.price + 1)) (loc.price + 1) q0 hq0v (by omega) (by omega)
    rw [h2v, h2a]
    unfold next_ask_above
    exact ⟨m1, by omega, fun q hq hlt2 => m3 q hq (by omega)⟩
  by_cases hqe : s.deferred_queue = []
  · -- fast path
    unfold update_lob
    dsimp only
    rw [if_neg (by push_neg; exact ⟨hsv, htid⟩)]
    rw [if_pos ⟨Or.inl htype, by rw [hloc]; rfl, hqe⟩]
    rw [hloc]
    dsimp only
    rw [if_pos htype]
    dsimp only
    rw [hfull]
    unfold update_tob_after_trade
    dsimp only
    rw [if_pos rfl, if_pos hdir]
    exact hmain _ rfl rfl
  · -- slow path (queue nonempty but target not deferred)
    rw [update_lob_slow s o hsv htid hqe]
    unfold update_lob_deferred
    dsimp only
    rw [if_neg (by rw [htype]; decide)]
    rw [if_pos htype, hnq]
    dsimp only
    rw [if_pos (by rw [hloc]; rfl)]
    rw [hloc]
    dsimp only
    rw [hfull]
    unfold update_tob_after_trade
    dsimp only
    rw [if_pos rfl, if_pos hdir]
    apply hmain
    · exact cleanup_special_visible _ o _
    · exact cleanup_special_best_ask _ o _

/-- Witness for C8: with visible asks only at 1000 and 1001, fully consuming
the ask at 1000 leaves `best_ask` as the least visible price above 1000. -/
theorem taker_advances_best_ask_witness :
    (update_lob c8_state c8_taker).2.best_ask ∈ (update_lob c8_state c8_taker).2.visible ∧
    1000 < (update_lob c8_state c8_taker).2.best_ask ∧
    ∀ q ∈ (update_lob c8_state c8_taker).2.visible, 1000 < q →
      (update_lob c8_state c8_taker).2.best_ask ≤ q :=
  taker_advances_best_ask c8_state c8_taker ⟨1000, 0⟩ ⟨1000, -4, 1, [⟨-4, 7⟩]⟩ ⟨-4, 7⟩ 1001
    rfl rfl (by decide) (by decide) (by decide) (by decide) (by decide)
    rfl rfl rfl (by decide) rfl (by decide) (by decide) (by decide)

/-!  C7: the run-bar emit condition. -/

theorem resample_fst (cfg : ResampleConfig) (st : ResampleRunBar) (ts : Nat)
    (b : Bool) (v : Nat) :
    (resample cfg st ts b v).1 = should_emit_bar cfg (accumulate_volume st b v) ts := by
  unfold resample
  dsimp only
  split
  · next h => exact h.symm
  · next h =>
    have : should_emit_bar cfg (accumulate_volume st b v) ts = true := by
      cases hv : should_emit_bar cfg (accumulate_volume st b v) ts
      · exact absurd hv h
      · rfl
    exact this.symm

theorem should_emit_bar_iff (cfg : ResampleConfig) (st : ResampleRunBar) (ts : Nat) :
    should_emit_bar cfg st ts = true ↔
      (max st.threshold_ema 0 ≤ ((max st.accum_buy st.accum_sell : Nat) : Rat) ∧
       cfg.min_period ≤ u32sub (ts / 256) (st.last_emit_timestamp / 256)) := by
  unfold should_emit_bar
  dsimp only
  by_cases h1 : ((max st.accum_buy st.accum_sell : Nat) : Rat) < max st.threshold_ema 0
  · rw [if_pos h1]
    constructor
    · intro hh
      exact absurd hh (by simp)
    · rintro ⟨ha, _⟩
      exact absurd h1 (not_lt.mpr ha)
  · rw [if_neg h1]
    by_cases h2 : u32sub (ts / 256) (st.last_emit_timestamp / 256) < cfg.min_period
    · rw [if_pos h2]
      constructor
      · intro hh
        exact absurd hh (by simp)
      · rintro ⟨_, hb⟩
        exact absurd h2 (not_lt.mpr hb)
    · rw [if_neg h2]
      constructor
      · intro _
        exact ⟨not_lt.mp h1, not_lt.mp h2⟩
      · intro _
        rfl

/-- C7 (amended): a bar is emitted on a trade exactly when, after accumulating
the trade's volume to its side, `max(accum_buy, accum_sell)` reaches
`max(threshold_ema, 0)` AND the `uint32` difference of the second-granularity
packed timestamps `(ts >> 8) - (last_emit >> 8)` is at least the minimum gap
(within a minute this difference equals the elapsed seconds; across minute or
hour boundaries it exceeds them); when no bar is emitted the whole sampler
state — in particular both accumulators — is retained as accumulated. -/
theorem run_bar_emit_rule (cfg : ResampleConfig) (st : ResampleRunBar) (ts : Nat)
    (b : Bool) (v : Nat) :
    ((resample cfg st ts b v).1 = true ↔
      (max (accumulate_volume st b v).threshold_ema 0 ≤
         ((max (accumulate_volume st b v).accum_buy
               (accumulate_volume st b v).accum_sell : Nat) : Rat) ∧
       cfg.min_period ≤
         u32sub (ts / 256) ((accumulate_volume st b v).last_emit_timestamp / 256))) ∧
    ((resample cfg st ts b v).1 = false →
      (resample cfg st ts b v).2 = accumulate_volume st b v) := by
  constructor
  · rw [resample_fst]
    exact should_emit_bar_iff cfg (accumulate_volume st b v) ts
  · intro hfalse
    unfold resample
    dsimp only
    unfold resample at hfalse
    dsimp only at hfalse
    split
    · rfl
    · next h =>
      rw [if_neg h] at hfalse
      exact absurd hfalse (by simp)

/-- C7 counterexample: a buy trade of volume 20 at 09:31:00.000 (packed
`153026560`), one real second after the last emission, emits a bar although
the spec's emit condition (elapsed seconds ≥ min gap = 2) is false: the code
compares the difference of packed timestamps (197 here), not seconds. -/
theorem run_bar_time_guard_not_seconds :
    (resample c7_cfg c7_st 153026560 true 20).1 = true ∧
    spec_should_emit c7_cfg (accumulate_volume c7_st true 20) 153026560 = false := by
  constructor
  · rw [resample_fst, should_emit_bar_iff]
    refine ⟨by norm_num [accumulate_volume, c7_st], by norm_num [accumulate_volume, c7_cfg, c7_st, u32sub]⟩
  · norm_num [spec_should_emit, spec_elapsed_seconds, accumulate_volume, c7_cfg, c7_st,
      hourOf, minuteOf]

/-- Witness for the amended C7 theorem: a trade below threshold does not emit
and the sampler state is exactly the accumulated state. -/
theorem run_bar_emit_rule_witness :
    (resample c7_cfg ⟨0, 0, 10, 0, 0, 9, [], [], 0⟩ 153026560 true 3).2 =
      accumulate_volume ⟨0, 0, 10, 0, 0, 9, [], [], 0⟩ true 3 :=
  (run_bar_emit_rule c7_cfg ⟨0, 0, 10, 0, 0, 9, [], [], 0⟩ 153026560 true 3).2
    (by
      rw [resample_fst]
      cases hv : should_emit_bar c7_cfg
          (accumulate_volume ⟨0, 0, 10, 0, 0, 9, [], [], 0⟩ true 3) 153026560
      · rfl
      · exfalso
        have := (should_emit_bar_iff _ _ _).mp hv
        have h3 : ((max (3 : Nat) 0 : Nat) : Rat) < 10 := by norm_num
        rw [show accumulate_volume ⟨0, 0, 10, 0, 0, 9, [], [], 0⟩ true 3 =
              ⟨3, 0, 10, 0, 0, 9, [], [], 0⟩ from rfl] at this
        have := this.1
        norm_num at this)

theorem ordersSum_cons (x : Order) (l : List Order) :
    ordersSum (x :: l) = x.qty + ordersSum l := by
  simp [ordersSum]

theorem ordersSum_append (l1 l2 : List Order) :
    ordersSum (l1 ++ l2) = ordersSum l1 + ordersSum l2 := by
  simp [ordersSum]

theorem ordersSum_set (l : List Order) (i : Nat) (a ord : Order)
    (h : l.get? i = some ord) :
    ordersSum (l.set i a) = ordersSum l - ord.qty + a.qty := by
  induction l generalizing i with
  | nil => simp at h
  | cons x rest ih =>
    cases i with
    | zero =>
      have hx : x = ord := by simpa using h
      subst hx
      simp only [List.set, ordersSum_cons]
      ring
    | succ n =>
      have hr : rest.get? n = some ord := by simpa using h
      simp only [List.set, ordersSum_cons, ih n hr]
      ring

theorem Inv_congr {s' s : EngineState} (hl : s'.levels = s.levels)
    (ho : s'.order_lookup = s.order_lookup) (hv : s'.visible = s.visible)
    (h : Inv s) : Inv s' := by
  unfold Inv find_level at *
  rw [hl, ho, hv]
  exact h

theorem Inv_initState : Inv initState := by
  unfold Inv initState
  refine ⟨?_, ?_, ?_, ?_, ?_⟩ <;> simp [find_level]

/-- Characterization of the swap-and-pop `Level.remove`. -/
theorem level_remove_spec (L : Level) (i : Nat) (ord : Order)
    (h : L.orders.get? i = some ord) :
    (Level.remove L i).price = L.price ∧
    (Level.remove L i).net_quantity = L.net_quantity - ord.qty ∧
    (Level.remove L i).order_count = L.order_count - 1 ∧
    (Level.remove L i).orders.length = L.orders.length - 1 ∧
    ordersSum (Level.remove L i).orders = ordersSum L.orders - ord.qty ∧
    (∀ j, j ≠ i → (Level.remove L i).orders.get? j =
        (if j < L.orders.length - 1 then L.orders.get? j else none)) ∧
    (i < L.orders.length - 1 →
      (Level.remove L i).orders.get? i = L.orders.get? (L.orders.length - 1)) := by
  have hi : i < L.orders.length := by
    by_contra hge
    rw [List.get?_eq_getElem?] at h
    rw [List.getElem?_eq_none (by omega)] at h
    exact absurd h (by simp)
  have hne : L.orders ≠ [] := by
    intro hnil
    rw [hnil] at hi
    simp at hi
  unfold Level.remove
  rw [h]
  dsimp only
  by_cases hc : i = L.orders.length - 1
  · -- no swap: the removed order is the last one
    rw [if_pos hc]
    have hcat := List.dropLast_concat_getLast hne
    have hordLast : L.orders.getLast hne = ord := by
      have hg : L.orders.get? (L.orders.length - 1) =
          some (L.orders.getLast hne) := by
        rw [List.getLast_eq_get]
        rw [List.get?_eq_get (by omega)]
      rw [← hc] at hg
      rw [h] at hg
      injection hg with hg
      exact hg.symm
    refine ⟨rfl, rfl, rfl, by simp, ?_, ?_, by omega⟩
    · have : ordersSum L.orders =
          ordersSum L.orders.dropLast + ord.qty := by
        conv_lhs => rw [← hcat]
        rw [ordersSum_append, hordLast]
        simp [ordersSum]
      omega
    · intro j _
      rw [List.get?_eq_getElem?, List.get?_eq_getElem?]
      rw [List.getElem?_dropLast]
  · -- swap: the last order moves into slot i
    rw [if_neg hc]
    have hilt : i < L.orders.length - 1 := by omega
    obtain ⟨lastOrd, hlast⟩ : ∃ lo, L.orders.get? (L.orders.length - 1) = some lo := by
      rw [List.get?_eq_get (by omega)]
      exact ⟨_, rfl⟩
    have hgetD : L.orders.getLastD ord = lastOrd := by
      rw [List.getLastD_eq_getLast?]
      rw [List.getLast?_eq_getElem?]
      rw [List.get?_eq_getElem?] at hlast
      rw [hlast]
      rfl
    rw [hgetD]
    have hMlen : (L.orders.set i lastOrd).length = L.orders.length := by simp
    have hMne : L.orders.set i lastOrd ≠ [] := by
      intro hnil
      rw [← List.length_eq_zero] at hnil
      omega
    have hMget : ∀ j, (L.orders.set i lastOrd).get? j =
        (if j = i then (if i < L.orders.length then some lastOrd else none)
         else L.orders.get? j) := by
      intro j
      by_cases hj : j = i
      · subst hj
        rw [if_pos rfl, if_pos hi]
        rw [List.get?_eq_getElem?]
        rw [List.getElem?_set_self hi]
      · rw [if_neg hj]
        rw [List.get?_eq_getElem?, List.get?_eq_getElem?]
        rw [List.getElem?_set_ne (by omega)]
    have hMcat := List.dropLast_concat_getLast hMne
    have hMlast : (L.orders.set i lastOrd).getLast hMne = lastOrd := by
      have hg : (L.orders.set i lastOrd).get? ((L.orders.set i lastOrd).length - 1) =
          some ((L.orders.set i lastOrd).getLast hMne) := by
        rw [List.getLast_eq_get]
        rw [List.get?_eq_get (by omega)]
      rw [hMlen] at hg
      rw [hMget (L.orders.length - 1), if_neg (by omega)] at hg
      rw [hlast] at hg
      injection hg with hg
      exact hg.symm
    have hMsum : ordersSum (L.orders.set i lastOrd) =
        ordersSum L.orders - ord.qty + lastOrd.qty := ordersSum_set _ _ _ _ h
    refine ⟨rfl, rfl, rfl, by simp, ?_, ?_, ?_⟩
    · have hsplit : ordersSum (L.orders.set i lastOrd) =
          ordersSum (L.orders.set i lastOrd).dropLast + lastOrd.qty := by
        conv_lhs => rw [← hMcat]
        rw [ordersSum_append, hMlast]
        simp [ordersSum]
      omega
    · intro j hj
      rw [List.get?_eq_getElem?, List.getElem?_dropLast]
      rw [hMlen]
      have hMj : (L.orders.set i lastOrd)[j]? = L.orders.get? j := by
        have := hMget j
        rw [if_neg hj] at this
        rw [List.get?_eq_getElem?] at this
        exact this
      by_cases hjlt : j < L.orders.length - 1
      · rw [if_pos hjlt, if_pos hjlt, hMj]
      · rw [if_neg hjlt, if_neg hjlt]
    · intro _
      rw [List.get?_eq_getElem?, List.getElem?_dropLast, hMlen]
      rw [if_pos (by omega)]
      have := hMget i
      rw [if_pos rfl, if_pos hi] at this
      rw [List.get?_eq_getElem?] at this
      rw [this, hlast]

theorem find_level_some_mem {s : EngineState} {p : Nat} {L : Level}
    (h : find_level s p = some L) : L ∈ s.levels ∧ L.price = p := by
  unfold find_level at h
  refine ⟨List.mem_of_find?_eq_some h, ?_⟩
  have := List.find?_some h
  simpa using this

theorem find?_price_of_mem {l : List Level} (hnd : (l.map Level.price).Nodup)
    {L : Level} (hL : L ∈ l) : l.find? (fun M => M.price == L.price) = some L := by
  induction l with
  | nil => simp at hL
  | cons M rest ih =>
    rcases List.mem_cons.mp hL with hML | hLr
    · rw [hML]
      exact find?_level_cons_pos _ _ _ rfl
    · have hMne : M.price ≠ L.price := by
        intro hpe
        have : L.price ∈ rest.map Level.price := List.mem_map_of_mem Level.price hLr
        rw [← hpe] at this
        exact (List.nodup_cons.mp hnd).1 this
      rw [find?_level_cons_neg _ _ _ hMne]
      exact ih (List.nodup_cons.mp hnd).2 hLr

theorem mem_find_level {s : EngineState} (hnd : (s.levels.map Level.price).Nodup)
    {L : Level} (hL : L ∈ s.levels) : find_level s L.price = some L :=
  find?_price_of_mem hnd hL

theorem price_inj {s : EngineState} (hnd : (s.levels.map Level.price).Nodup)
    {L L' : Level} (hL : L ∈ s.levels) (hL' : L' ∈ s.levels)
    (hp : L.price = L'.price) : L = L' := by
  have h1 := mem_find_level hnd hL
  have h2 := mem_find_level hnd hL'
  rw [hp] at h1
  rw [h1] at h2
  injection h2

theorem lookupFind_none_not_key {α : Type} {m : List (Nat × α)} {k : Nat}
    (h : lookupFind m k = none) : ∀ e ∈ m, e.1 ≠ k := by
  intro e he
  unfold lookupFind at h
  rw [Option.map_eq_none'] at h
  have := List.find?_eq_none.mp h e he
  simpa using this

theorem mem_lookup_of_nodup {α : Type} {m : List (Nat × α)}
    (hnd : (m.map Prod.fst).Nodup) {k : Nat} {v : α} (h : (k, v) ∈ m) :
    lookupFind m k = some v := by
  induction m with
  | nil => simp at h
  | cons e rest ih =>
    rcases List.mem_cons.mp h with he | hr
    · rw [← he]
      unfold lookupFind
      rw [find?_keyed_cons_pos (k, v) rest k rfl]
      rfl
    · have hek : e.1 ≠ k := by
        intro hek
        have : k ∈ rest.map Prod.fst := by
          have := List.mem_map_of_mem Prod.fst hr
          simpa using this
        rw [← hek] at this
        exact (List.nodup_cons.mp hnd).1 this
      unfold lookupFind at *
      rw [find?_keyed_cons_neg _ _ _ hek]
      exact ih (List.nodup_cons.mp hnd).2 hr

theorem lookupFind_append_left {α : Type} {m l2 : List (Nat × α)} {k : Nat} {w : α}
    (h : lookupFind m k = some w) : lookupFind (m ++ l2) k = some w := by
  unfold lookupFind at *
  rcases Option.map_eq_some'.mp h with ⟨e, he, hev⟩
  rw [List.find?_append, he]
  simpa using hev

theorem lookupFind_append_right {α : Type} {m l2 : List (Nat × α)} {k : Nat}
    (h : lookupFind m k = none) : lookupFind (m ++ l2) k = lookupFind l2 k := by
  unfold lookupFind at *
  rw [Option.map_eq_none'] at h
  rw [List.find?_append, h]
  rfl

theorem lookupFind_setKey_ne {α : Type} {m : List (Nat × α)} {k q : Nat} {v : α}
    (h : q ≠ k) : lookupFind (setKey m k v) q = lookupFind m q := by
  induction m with
  | nil => rfl
  | cons e rest ih =>
    unfold setKey at *
    rw [List.map_cons]
    by_cases hek : e.1 = k
    · rw [if_pos (by simp [hek])]
      unfold lookupFind
      rw [find?_keyed_cons_neg _ _ _ (by omega)]
      rw [find?_keyed_cons_neg _ _ _ (by omega)]
      exact ih
    · rw [if_neg (by simp [hek])]
      by_cases heq : e.1 = q
      · unfold lookupFind
        rw [find?_keyed_cons_pos _ _ _ heq, find?_keyed_cons_pos _ _ _ heq]
      · unfold lookupFind at *
        rw [find?_keyed_cons_neg _ _ _ heq, find?_keyed_cons_neg _ _ _ heq]
        exact ih

theorem setKey_keys {α : Type} (m : List (Nat × α)) (k : Nat) (v : α) :
    (setKey m k v).map Prod.fst = m.map Prod.fst := by
  unfold setKey
  rw [List.map_map]
  apply List.map_congr_left
  intro e _
  by_cases hek : e.1 = k
  · simp [hek]
  · simp [hek]

theorem eraseKey_keys_nodup {α : Type} {m : List (Nat × α)}
    (h : (m.map Prod.fst).Nodup) (k : Nat) :
    ((eraseKey m k).map Prod.fst).Nodup :=
  h.sublist (List.Sublist.map Prod.fst (List.filter_sublist m))

theorem mem_eraseKey {α : Type} {m : List (Nat × α)} {k : Nat} {e : Nat × α}
    (h : e ∈ eraseKey m k) : e ∈ m ∧ e.1 ≠ k := by
  unfold eraseKey at h
  have h2 := List.mem_filter.mp h
  refine ⟨h2.1, ?_⟩
  have := h2.2
  simpa using this

theorem mem_eraseKey_of_ne {α : Type} {m : List (Nat × α)} {k : Nat} {e : Nat × α}
    (h : e ∈ m) (hne : e.1 ≠ k) : e ∈ eraseKey m k :=
  List.mem_filter.mpr ⟨h, by simpa using hne⟩

theorem mem_setKey {α : Type} {m : List (Nat × α)} {k : Nat} {v : α} {e : Nat × α}
    (h : e ∈ setKey m k v) : e = (k, v) ∨ (e ∈ m ∧ e.1 ≠ k) := by
  unfold setKey at h
  rcases List.mem_map.mp h with ⟨e0, he0, heq⟩
  by_cases hek : e0.1 = k
  · rw [if_pos (by simp [hek])] at heq
    exact Or.inl heq.symm
  · rw [if_neg (by simp [hek])] at heq
    rw [← heq]
    exact Or.inr ⟨he0, hek⟩

theorem update_visible_self (s : EngineState) (L : Level) :
    L.price ∈ (update_visible_price s L).visible ↔ L.net_quantity ≠ 0 := by
  unfold update_visible_price add_visible_price remove_visible_price
  by_cases hz : L.net_quantity ≠ 0
  · rw [if_pos hz]
    refine ⟨fun _ => hz, fun _ => ?_⟩
    split
    · next hcon => simpa using hcon
    · exact List.mem_cons_self _ _
  · rw [if_neg hz]
    constructor
    · intro hmem
      exfalso
      revert hmem
      split
      · intro hmem
        have := (List.mem_filter.mp hmem).2
        simp at this
      · next hcon =>
        intro hmem
        exact hcon (by simpa using hmem)
    · intro hnz
      exact absurd hnz hz

theorem mem_update_visible_ne {s : EngineState} {L : Level} {q : Nat}
    (h : q ≠ L.price) : q ∈ (update_visible_price s L).visible ↔ q ∈ s.visible := by
  unfold update_visible_price add_visible_price remove_visible_price
  split
  · split
    · exact Iff.rfl
    · simp [h]
  · split
    · constructor
      · intro hm
        exact (List.mem_filter.mp hm).1
      · intro hm
        exact List.mem_filter.mpr ⟨hm, by simpa using h⟩
    · exact Iff.rfl

theorem set_level_map_price (s : EngineState) (L1 : Level) :
    (set_level s L1).levels.map Level.price = s.levels.map Level.price := by
  unfold set_level
  dsimp only
  rw [List.map_map]
  apply List.map_congr_left
  intro M _
  by_cases hM : M.price = L1.price
  · simp [hM]
  · simp [hM]

theorem mem_set_level {s : EngineState} {L1 M' : Level}
    (h : M' ∈ (set_level s L1).levels) :
    M' = L1 ∨ (M' ∈ s.levels ∧ M'.price ≠ L1.price) := by
  unfold set_level at h
  rcases List.mem_map.mp h with ⟨M, hM, heq⟩
  by_cases hMp : M.price = L1.price
  · rw [if_pos (by simp [hMp])] at heq
    exact Or.inl heq.symm
  · rw [if_neg (by simp [hMp])] at heq
    rw [← heq]
    exact Or.inr ⟨hM, hMp⟩

theorem find_level_set_level_ne {s : EngineState} {L1 : Level} {q : Nat}
    (h : q ≠ L1.price) : find_level (set_level s L1) q = find_level s q := by
  unfold find_level set_level
  dsimp only
  induction s.levels with
  | nil => rfl
  | cons M rest ih =>
    rw [List.map_cons]
    by_cases hM : M.price = L1.price
    · rw [if_pos (by simp [hM])]
      rw [find?_level_cons_neg _ _ _ (by omega)]
      rw [find?_level_cons_neg _ _ _ (by omega)]
      exact ih
    · rw [if_neg (by simp [hM])]
      by_cases hMq : M.price = q
      · rw [find?_level_cons_pos _ _ _ hMq, find?_level_cons_pos _ _ _ hMq]
      · rw [find?_level_cons_neg _ _ _ hMq, find?_level_cons_neg _ _ _ hMq]
        exact ih

theorem find_level_set_level_eq {s : EngineState} {p : Nat} {L : Level} (L1 : Level)
    (h : find_level s p = some L) (hp : L1.price = L.price) :
    find_level (set_level s L1) p = some L1 :=
  find?_map_set L1 h hp

theorem find?_level_filter_ne {l : List Level} {lp q : Nat} (h : q ≠ lp) :
    (l.filter (fun M => !(M.price == lp))).find? (fun M => M.price == q) =
    l.find? (fun M => M.price == q) := by
  induction l with
  | nil => rfl
  | cons M rest ih =>
    rw [List.filter_cons]
    by_cases hM : M.price = lp
    · rw [if_neg (by simp [hM])]
      rw [find?_level_cons_neg _ _ _ (by omega)]
      exact ih
    · rw [if_pos (by simp [hM])]
      by_cases hMq : M.price = q
      · rw [find?_level_cons_pos _ _ _ hMq, find?_level_cons_pos _ _ _ hMq]
      · rw [find?_level_cons_neg _ _ _ hMq, find?_level_cons_neg _ _ _ hMq]
        exact ih

theorem find?_level_append_ne {l : List Level} {q : Nat} (L1 : Level)
    (h : L1.price ≠ q) :
    (l ++ [L1]).find? (fun M => M.price == q) = l.find? (fun M => M.price == q) := by
  induction l with
  | nil =>
    rw [List.nil_append]
    rw [find?_level_cons_neg _ _ _ h]
  | cons M rest ih =>
    rw [List.cons_append]
    by_cases hMq : M.price = q
    · rw [find?_level_cons_pos _ _ _ hMq, find?_level_cons_pos _ _ _ hMq]
    · rw [find?_level_cons_neg _ _ _ hMq, find?_level_cons_neg _ _ _ hMq]
      exact ih

/-- C10: processing an event stream is a pure function of the stream — two
runs from a fresh engine yield identical observable book states regardless of
the residual value of the process-wide `static` flag left behind by earlier
runs or other engine instances. -/
theorem engine_run_deterministic (evs : List L2Order) (b1 b2 : Bool) :
    book_observation (process_batch (initStateWith b1) evs) =
    book_observation (process_batch (initStateWith b2) evs) := by
  cases evs with
  | nil => rfl
  | cons o rest =>
    show book_observation (process_batch (process (initStateWith b1) o).2 rest) =
         book_observation (process_batch (process (initStateWith b2) o).2 rest)
    rw [process_residual_flag b1 o, process_residual_flag b2 o]

/-!  C1 Stage 2b: `apply_volume_change` preserves the invariant. -/

theorem add_visible_price_lookup (s : EngineState) (p : Nat) :
    (add_visible_price s p).order_lookup = s.order_lookup := by
  unfold add_visible_price
  split <;> rfl

theorem remove_visible_price_lookup (s : EngineState) (p : Nat) :
    (remove_visible_price s p).order_lookup = s.order_lookup := by
  unfold remove_visible_price
  split <;> rfl

theorem update_visible_price_lookup (s : EngineState) (L : Level) :
    (update_visible_price s L).order_lookup = s.order_lookup := by
  unfold update_visible_price
  split
  · exact add_visible_price_lookup s L.price
  · exact remove_visible_price_lookup s L.price

theorem remove_level_lookup (s : EngineState) (p : Nat) :
    (remove_level s p).order_lookup = s.order_lookup := by
  unfold remove_level
  rw [remove_visible_price_lookup]

theorem remove_level_levels_eq (s : EngineState) (p : Nat) :
    (remove_level s p).levels = s.levels.filter (fun L => !(L.price == p)) := by
  unfold remove_level remove_visible_price
  split <;> rfl

theorem mem_remove_visible_iff {s : EngineState} {p q : Nat} (hne : q ≠ p) :
    q ∈ (remove_visible_price s p).visible ↔ q ∈ s.visible := by
  unfold remove_visible_price
  split
  · constructor
    · intro h
      exact (List.mem_filter.mp h).1
    · intro h
      exact List.mem_filter.mpr ⟨h, by simpa using hne⟩
  · exact Iff.rfl

theorem mem_remove_level_iff {s : EngineState} {p q : Nat} (hne : q ≠ p) :
    q ∈ (remove_level s p).visible ↔ q ∈ s.visible := by
  unfold remove_level
  exact mem_remove_visible_iff hne

theorem get?_some_lt {α : Type} {l : List α} {i : Nat} {a : α}
    (h : l.get? i = some a) : i < l.length := by
  by_contra hge
  rw [List.get?_eq_getElem?, List.getElem?_eq_none (by omega)] at h
  exact absurd h (by simp)

/-- The lookup entry of a live id points at an order whose stored id is that
id. -/
theorem inv_lookup_target {s : EngineState} (hInv : Inv s) {tid : Nat} {loc : Location}
    (hloc : lookupFind s.order_lookup tid = some loc) :
    ∃ L ord, find_level s loc.price = some L ∧
      L.orders.get? loc.index = some ord ∧ ord.id = tid := by
  obtain ⟨-, -, -, hE4, -⟩ := hInv
  obtain ⟨L, hfl, ord, hget, hid⟩ := hE4 (tid, loc) (lookupFind_mem hloc)
  exact ⟨L, ord, hfl, hget, hid⟩

/-- Two stored orders with the same id sit at the same position. -/
theorem inv_position_unique {s : EngineState} (hInv : Inv s) {L L' : Level}
    {i j : Nat} {ord ord' : Order} (hL : L ∈ s.levels) (hL' : L' ∈ s.levels)
    (hi : L.orders.get? i = some ord) (hj : L'.orders.get? j = some ord')
    (hid : ord.id = ord'.id) : L = L' ∧ i = j := by
  obtain ⟨-, hndL, -, -, hE5⟩ := hInv
  have h1 := hE5 L hL i ord hi
  have h2 := hE5 L' hL' j ord' hj
  rw [hid] at h1
  rw [h1] at h2
  simp only [Option.some.injEq, Location.mk.injEq] at h2
  exact ⟨price_inj hndL hL hL' h2.1, h2.2⟩

/-- The partial-modify branch of `apply_volume_change` preserves the
invariant. -/
theorem inv_modify (s : EngineState) (hInv : Inv s) (loc : Location) (L : Level)
    (ord : Order) (v : Int)
    (hfl : find_level s loc.price = some L)
    (hget : L.orders.get? loc.index = some ord) :
    Inv (update_visible_price
      (set_level s { L with net_quantity := L.net_quantity + v,
                            orders := L.orders.set loc.index
                              { ord with qty := ord.qty + v } })
      { L with net_quantity := L.net_quantity + v,
               orders := L.orders.set loc.index
                 { ord with qty := ord.qty + v } }) := by
  obtain ⟨hGood, hndL, hndK, hE4, hE5⟩ := hInv
  obtain ⟨hLmem, hLp⟩ := find_level_some_mem hfl
  have hidx : loc.index < L.orders.length := get?_some_lt hget
  set L1 : Level := { L with net_quantity := L.net_quantity + v,
                             orders := L.orders.set loc.index
                               { ord with qty := ord.qty + v } } with hL1
  set sOut := update_visible_price (set_level s L1) L1 with hsOut
  have hlev : sOut.levels = (set_level s L1).levels := update_visible_price_levels _ _
  have hlk : sOut.order_lookup = s.order_lookup := update_visible_price_lookup _ _
  have hL1p : L1.price = L.price := rfl
  have hfOutNe : ∀ q, q ≠ L1.price → find_level sOut q = find_level s q := by
    intro q hq
    rw [find_level_eq_of_levels q hlev]
    exact find_level_set_level_ne hq
  have hfOutEq : find_level sOut loc.price = some L1 := by
    rw [find_level_eq_of_levels loc.price hlev]
    exact find_level_set_level_eq L1 hfl hL1p
  have hmemOut : ∀ M' ∈ sOut.levels, M' = L1 ∨ (M' ∈ s.levels ∧ M'.price ≠ L1.price) := by
    intro M' hM'
    exact mem_set_level (hlev ▸ hM')
  unfold Inv
  refine ⟨?_, ?_, ?_, ?_, ?_⟩
  · intro M' hM'
    unfold LevelGood
    rcases hmemOut M' hM' with hML1 | ⟨hMs, hMne⟩
    · subst hML1
      refine ⟨?_, ?_, ?_⟩
      · rw [hL1]
        dsimp only
        rw [ordersSum_set L.orders loc.index _ ord hget]
        have h1 := (hGood L hLmem).1
        dsimp only
        omega
      · rw [hL1]
        dsimp only
        rw [List.length_set]
        exact (hGood L hLmem).2.1
      · rw [hsOut]
        exact update_visible_self _ L1
    · have hg := hGood M' hMs
      refine ⟨hg.1, hg.2.1, ?_⟩
      rw [hsOut]
      rw [mem_update_visible_ne hMne]
      exact hg.2.2
  · rw [hlev, set_level_map_price]
    exact hndL
  · rw [hlk]
    exact hndK
  · intro e he
    rw [hlk] at he
    obtain ⟨L'', hfe, ord_e, hge, hide⟩ := hE4 e he
    by_cases hep : e.2.price = loc.price
    · have hL'' : L'' = L := by
        rw [hep, hfl] at hfe
        injection hfe with h
        exact h.symm
      subst hL''
      refine ⟨L1, ?_, ?_⟩
      · rw [hep]
        exact hfOutEq
      · by_cases hei : e.2.index = loc.index
        · refine ⟨{ ord with qty := ord.qty + v }, ?_, ?_⟩
          · rw [hL1]
            dsimp only
            rw [hei]
            rw [List.get?_eq_getElem?, List.getElem?_set_self hidx]
          · have hoe : ord_e = ord := by
              rw [hei, hget] at hge
              injection hge with h
              exact h.symm
            dsimp only
            rw [← hide, hoe]
        · refine ⟨ord_e, ?_, hide⟩
          rw [hL1]
          dsimp only
          rw [List.get?_eq_getElem?, List.getElem?_set_ne (by omega)]
          rw [← List.get?_eq_getElem?]
          exact hge
    · refine ⟨L'', ?_, ord_e, hge, hide⟩
      rw [hfOutNe e.2.price (by rw [hL1p, hLp]; exact hep)]
      exact hfe
  · intro M' hM' i ord1 hord1
    rw [hlk]
    rcases hmemOut M' hM' with hML1 | ⟨hMs, hMne⟩
    · subst hML1
      rw [hL1] at hord1
      dsimp only at hord1
      by_cases hi : i = loc.index
      · subst hi
        rw [List.get?_eq_getElem?, List.getElem?_set_self hidx] at hord1
        have hord1a : ord1 = { ord with qty := ord.qty + v } := by
          injection hord1 with h
          exact h.symm
        have h5 := hE5 L hLmem loc.index ord hget
        rw [hord1a]
        dsimp only
        rw [hL1p]
        exact h5
      · rw [List.get?_eq_getElem?, List.getElem?_set_ne (by omega)] at hord1
        rw [← List.get?_eq_getElem?] at hord1
        have h5 := hE5 L hLmem i ord1 hord1
        rw [hL1p]
        exact h5
    · exact hE5 M' hMs i ord1 hord1

/-- The create branch of `apply_volume_change` on an existing level preserves
the invariant. -/
theorem inv_create_existing (s : EngineState) (hInv : Inv s) (tid p : Nat) (v : Int)
    (L : Level) (hloc : lookupFind s.order_lookup tid = none)
    (hL : find_level s p = some L) :
    Inv (update_visible_price
      { set_level s (Level.add L ⟨v, tid⟩) with
          order_lookup := (set_level s (Level.add L ⟨v, tid⟩)).order_lookup ++
            [(tid, ⟨p, L.orders.length⟩)] }
      (Level.add L ⟨v, tid⟩)) := by
  obtain ⟨hGood, hndL, hndK, hE4, hE5⟩ := hInv
  have htid : ∀ e ∈ s.order_lookup, e.1 ≠ tid := lookupFind_none_not_key hloc
  have hkey : tid ∉ s.order_lookup.map Prod.fst := by
    intro hmem
    obtain ⟨e, he, heq⟩ := List.mem_map.mp hmem
    exact htid e he heq
  obtain ⟨hLmem, hLp⟩ := find_level_some_mem hL
  set L1 : Level := Level.add L ⟨v, tid⟩ with hL1
  set sOut := update_visible_price
      { set_level s L1 with
          order_lookup := (set_level s L1).order_lookup ++
            [(tid, ⟨p, L.orders.length⟩)] }
      L1 with hsOut
  have hlev : sOut.levels = (set_level s L1).levels := update_visible_price_levels _ _
  have hlk : sOut.order_lookup = s.order_lookup ++ [(tid, ⟨p, L.orders.length⟩)] :=
    update_visible_price_lookup _ _
  have hL1p : L1.price = L.price := rfl
  have hL1o : L1.orders = L.orders ++ [⟨v, tid⟩] := rfl
  have hL1n : L1.net_quantity = L.net_quantity + v := rfl
  have hL1c : L1.order_count = L.order_count + 1 := rfl
  have hfOutNe : ∀ q, q ≠ L1.price → find_level sOut q = find_level s q := by
    intro q hq
    rw [find_level_eq_of_levels q hlev]
    exact find_level_set_level_ne hq
  have hfOutEq : find_level sOut p = some L1 := by
    rw [find_level_eq_of_levels p hlev]
    exact find_level_set_level_eq L1 hL hL1p
  have hmemOut : ∀ M' ∈ sOut.levels, M' = L1 ∨ (M' ∈ s.levels ∧ M'.price ≠ L1.price) := by
    intro M' hM'
    exact mem_set_level (hlev ▸ hM')
  unfold Inv
  refine ⟨?_, ?_, ?_, ?_, ?_⟩
  · intro M' hM'
    unfold LevelGood
    rcases hmemOut M' hM' with hML1 | ⟨hMs, hMne⟩
    · subst hML1
      refine ⟨?_, ?_, ?_⟩
      · rw [hL1o, hL1n, ordersSum_append]
        have hone : ordersSum [(⟨v, tid⟩ : Order)] = v := by simp [ordersSum]
        rw [hone, (hGood L hLmem).1]
      · rw [hL1c, hL1o, List.length_append, (hGood L hLmem).2.1]
        rfl
      · rw [hsOut]
        exact update_visible_self _ L1
    · have hg := hGood M' hMs
      refine ⟨hg.1, hg.2.1, ?_⟩
      rw [hsOut]
      rw [mem_update_visible_ne hMne]
      exact hg.2.2
  · rw [hlev, set_level_map_price]
    exact hndL
  · rw [hlk, List.map_append]
    refine List.Nodup.append hndK (by simp) ?_
    intro a ha hb
    have hb' : a = tid := by simpa using hb
    subst hb'
    exact hkey ha
  · intro e he
    rw [hlk] at he
    rcases List.mem_append.mp he with hold | hnew
    · obtain ⟨L'', hfe, ord_e, hge, hide⟩ := hE4 e hold
      by_cases hep : e.2.price = p
      · have hL'' : L'' = L := by
          rw [hep, hL] at hfe
          injection hfe with h
          exact h.symm
        subst hL''
        refine ⟨L1, by rw [hep]; exact hfOutEq, ord_e, ?_, hide⟩
        rw [hL1o]
        rw [List.get?_eq_getElem?, List.getElem?_append, if_pos (get?_some_lt hge)]
        rw [← List.get?_eq_getElem?]
        exact hge
      · refine ⟨L'', ?_, ord_e, hge, hide⟩
        rw [hfOutNe e.2.price (by rw [hL1p, hLp]; exact hep)]
        exact hfe
    · have he2 : e = (tid, ⟨p, L.orders.length⟩) := by simpa using hnew
      subst he2
      refine ⟨L1, hfOutEq, ⟨v, tid⟩, ?_, rfl⟩
      show L1.orders.get? L.orders.length = some ⟨v, tid⟩
      rw [hL1o]
      exact List.get?_concat_length _ _
  · intro M' hM' i ord1 hord1
    rw [hlk]
    rcases hmemOut M' hM' with hML1 | ⟨hMs, hMne⟩
    · subst hML1
      rw [hL1o] at hord1
      by_cases hi : i < L.orders.length
      · rw [List.get?_eq_getElem?, List.getElem?_append, if_pos hi,
            ← List.get?_eq_getElem?] at hord1
        have h5 := hE5 L hLmem i ord1 hord1
        rw [hL1p]
        exact lookupFind_append_left h5
      · have hlen : i < L.orders.length + 1 := by
          have := get?_some_lt hord1
          simpa using this
        have hieq : i = L.orders.length := by omega
        subst hieq
        rw [List.get?_concat_length] at hord1
        have hord1v : ord1 = ⟨v, tid⟩ := by
          injection hord1 with h
          exact h.symm
        rw [hord1v]
        show lookupFind (s.order_lookup ++ [(tid, (⟨p, L.orders.length⟩ : Location))]) tid =
          some ⟨L1.price, L.orders.length⟩
        rw [lookupFind_append_right hloc]
        rw [mem_lookup_of_nodup (by simp) (List.mem_singleton.mpr rfl), hL1p, hLp]
    · have h5 := hE5 M' hMs i ord1 hord1
      exact lookupFind_append_left h5

/-- The create branch of `apply_volume_change` on a fresh level preserves the
invariant. -/
theorem inv_create_new (s : EngineState) (hInv : Inv s) (tid p : Nat) (v : Int)
    (hloc : lookupFind s.order_lookup tid = none)
    (hnone : find_level s p = none) :
    Inv (update_visible_price
      { s with levels := s.levels ++ [Level.add ⟨p, 0, 0, []⟩ ⟨v, tid⟩],
               order_lookup := s.order_lookup ++ [(tid, ⟨p, 0⟩)] }
      (Level.add ⟨p, 0, 0, []⟩ ⟨v, tid⟩)) := by
  obtain ⟨hGood, hndL, hndK, hE4, hE5⟩ := hInv
  have htid : ∀ e ∈ s.order_lookup, e.1 ≠ tid := lookupFind_none_not_key hloc
  have hkey : tid ∉ s.order_lookup.map Prod.fst := by
    intro hmem
    obtain ⟨e, he, heq⟩ := List.mem_map.mp hmem
    exact htid e he heq
  have hnp : ∀ M ∈ s.levels, M.price ≠ p := by
    intro M hM hMp
    have := List.find?_eq_none.mp hnone M hM
    simp [hMp] at this
  set L1 : Level := Level.add ⟨p, 0, 0, []⟩ ⟨v, tid⟩ with hL1
  set sOut := update_visible_price
      { s with levels := s.levels ++ [L1],
               order_lookup := s.order_lookup ++ [(tid, ⟨p, 0⟩)] }
      L1 with hsOut
  have hlev : sOut.levels = s.levels ++ [L1] := update_visible_price_levels _ _
  have hlk : sOut.order_lookup = s.order_lookup ++ [(tid, ⟨p, 0⟩)] :=
    update_visible_price_lookup _ _
  have hL1p : L1.price = p := rfl
  have hL1o : L1.orders = [⟨v, tid⟩] := rfl
  have hL1n : L1.net_quantity = 0 + v := rfl
  have hL1c : L1.order_count = 1 := rfl
  have hfOutNe : ∀ q, q ≠ p → find_level sOut q = find_level s q := by
    intro q hq
    show sOut.levels.find? (fun M => M.price == q) = _
    rw [hlev]
    rw [find?_level_append_ne L1 (by rw [hL1p]; exact hq.symm)]
    rfl
  have hfOutEq : find_level sOut p = some L1 := by
    show sOut.levels.find? (fun M => M.price == p) = some L1
    rw [hlev]
    exact find?_append_none L1 hnone hL1p
  have hmemOut : ∀ M' ∈ sOut.levels, M' = L1 ∨ (M' ∈ s.levels ∧ M'.price ≠ p) := by
    intro M' hM'
    rw [hlev] at hM'
    rcases List.mem_append.mp hM' with h | h
    · exact Or.inr ⟨h, hnp M' h⟩
    · exact Or.inl (by simpa using h)
  unfold Inv
  refine ⟨?_, ?_, ?_, ?_, ?_⟩
  · intro M' hM'
    unfold LevelGood
    rcases hmemOut M' hM' with hML1 | ⟨hMs, hMne⟩
    · subst hML1
      refine ⟨?_, ?_, ?_⟩
      · rw [hL1o, hL1n]
        simp [ordersSum]
      · rw [hL1c, hL1o]
        rfl
      · rw [hsOut]
        exact update_visible_self _ L1
    · have hg := hGood M' hMs
      refine ⟨hg.1, hg.2.1, ?_⟩
      rw [hsOut]
      rw [mem_update_visible_ne (by rw [hL1p]; exact hMne)]
      exact hg.2.2
  · rw [hlev, List.map_append]
    refine List.Nodup.append hndL (by simp) ?_
    intro a ha hb
    have hb' : a = L1.price := by simpa using hb
    rw [hL1p] at hb'
    subst hb'
    obtain ⟨M, hM, hMp⟩ := List.mem_map.mp ha
    exact hnp M hM hMp
  · rw [hlk, List.map_append]
    refine List.Nodup.append hndK (by simp) ?_
    intro a ha hb
    have hb' : a = tid := by simpa using hb
    subst hb'
    exact hkey ha
  · intro e he
    rw [hlk] at he
    rcases List.mem_append.mp he with hold | hnew
    · obtain ⟨L'', hfe, ord_e, hge, hide⟩ := hE4 e hold
      have hep : e.2.price ≠ p := by
        intro hep
        rw [hep, hnone] at hfe
        exact absurd hfe (by simp)
      refine ⟨L'', ?_, ord_e, hge, hide⟩
      rw [hfOutNe e.2.price hep]
      exact hfe
    · have he2 : e = (tid, ⟨p, 0⟩) := by simpa using hnew
      subst he2
      refine ⟨L1, hfOutEq, ⟨v, tid⟩, ?_, rfl⟩
      show L1.orders.get? 0 = some ⟨v, tid⟩
      rw [hL1o]
      rfl
  · intro M' hM' i ord1 hord1
    rw [hlk]
    rcases hmemOut M' hM' with hML1 | ⟨hMs, hMne⟩
    · subst hML1
      rw [hL1o] at hord1
      have hi0 : i = 0 := by
        have := get?_some_lt hord1
        simp at this
        omega
      subst hi0
      have hord1v : ord1 = ⟨v, tid⟩ := by
        injection hord1 with h
        exact h.symm
      rw [hord1v]
      show lookupFind (s.order_lookup ++ [(tid, (⟨p, 0⟩ : Location))]) tid =
        some ⟨L1.price, 0⟩
      rw [lookupFind_append_right hloc]
      rw [mem_lookup_of_nodup (by simp) (List.mem_singleton.mpr rfl), hL1p]
    · have h5 := hE5 M' hMs i ord1 hord1
      exact lookupFind_append_left h5

/-- The create branch of `apply_volume_change` preserves the invariant. -/
theorem inv_create (s : EngineState) (hInv : Inv s) (tid p : Nat) (v : Int)
    (hloc : lookupFind s.order_lookup tid = none) :
    Inv (apply_volume_change s tid p v).1 := by
  unfold apply_volume_change
  rw [hloc]
  dsimp only
  split
  next L hL => exact inv_create_existing s hInv tid p v L hloc hL
  next hnone => exact inv_create_new s hInv tid p v hloc hnone

/-- The id stored in the targeted order slot is the target id. -/
theorem inv_target_id {s : EngineState} (hInv : Inv s) {tid : Nat} {loc : Location}
    {L : Level} {ord : Order}
    (hloc : lookupFind s.order_lookup tid = some loc)
    (hfl : find_level s loc.price = some L)
    (hget : L.orders.get? loc.index = some ord) : ord.id = tid := by
  obtain ⟨L', ord', hfl', hget', hid'⟩ := inv_lookup_target hInv hloc
  rw [hfl] at hfl'
  injection hfl' with hLq
  subst hLq
  rw [hget] at hget'
  injection hget' with ho
  rw [ho]
  exact hid'

/-- Full consumption with swap-and-pop fix: the last order of the level moves
into the freed slot and its lookup entry is repointed. -/
theorem inv_full_swap (s : EngineState) (hInv : Inv s) (tid : Nat)
    (loc : Location) (L : Level) (ord lastOrd : Order)
    (hloc : lookupFind s.order_lookup tid = some loc)
    (hfl : find_level s loc.price = some L)
    (hget : L.orders.get? loc.index = some ord)
    (hlast : L.orders.get? (L.orders.length - 1) = some lastOrd)
    (hn2 : loc.index < L.orders.length - 1) :
    Inv (update_visible_price
      { set_level s (Level.remove L loc.index) with
          order_lookup := setKey (eraseKey s.order_lookup tid) lastOrd.id
            ⟨L.price, loc.index⟩ }
      (Level.remove L loc.index)) := by
  have hidx : loc.index < L.orders.length := get?_some_lt hget
  obtain ⟨hLmem, hLp⟩ := find_level_some_mem hfl
  have hot : ord.id = tid := inv_target_id hInv hloc hfl hget
  obtain ⟨hp1, hnet1, hcnt1, hlen1, hsum1, hother, hmoved⟩ :=
    level_remove_spec L loc.index ord hget
  have hGood := hInv.1
  have hndL := hInv.2.1
  have hndK := hInv.2.2.1
  have hE4 := hInv.2.2.2.1
  have hE5 := hInv.2.2.2.2
  have hlne : lastOrd.id ≠ tid := by
    intro he
    have hu := inv_position_unique hInv hLmem hLmem hlast hget (by rw [he, hot])
    exact absurd hu.2 (by omega)
  have h5last : lookupFind s.order_lookup lastOrd.id =
      some ⟨L.price, L.orders.length - 1⟩ :=
    hE5 L hLmem _ lastOrd hlast
  have hlk1 : lookupFind (eraseKey s.order_lookup tid) lastOrd.id =
      some ⟨L.price, L.orders.length - 1⟩ := by
    rw [lookupFind_eraseKey_ne s.order_lookup tid lastOrd.id hlne]
    exact h5last
  set L1 : Level := Level.remove L loc.index with hL1def
  set lk2 := setKey (eraseKey s.order_lookup tid) lastOrd.id
      (⟨L.price, loc.index⟩ : Location) with hlk2def
  set sOut := update_visible_price { set_level s L1 with order_lookup := lk2 } L1
    with hsOut
  have hlev : sOut.levels = (set_level s L1).levels := update_visible_price_levels _ _
  have hlk : sOut.order_lookup = lk2 := update_visible_price_lookup _ _
  have hfOutNe : ∀ q, q ≠ L1.price → find_level sOut q = find_level s q := by
    intro q hq
    rw [find_level_eq_of_levels q hlev]
    exact find_level_set_level_ne hq
  have hfOutEq : find_level sOut loc.price = some L1 := by
    rw [find_level_eq_of_levels loc.price hlev]
    exact find_level_set_level_eq L1 hfl hp1
  have hmemOut : ∀ M' ∈ sOut.levels, M' = L1 ∨ (M' ∈ s.levels ∧ M'.price ≠ L1.price) := by
    intro M' hM'
    exact mem_set_level (hlev ▸ hM')
  have hmv : L1.orders.get? loc.index = some lastOrd := by
    rw [hmoved hn2]
    exact hlast
  unfold Inv
  refine ⟨?_, ?_, ?_, ?_, ?_⟩
  · intro M' hM'
    unfold LevelGood
    rcases hmemOut M' hM' with hML1 | ⟨hMs, hMne⟩
    · subst hML1
      refine ⟨?_, ?_, ?_⟩
      · rw [hsum1, hnet1, (hGood L hLmem).1]
      · rw [hcnt1, hlen1, (hGood L hLmem).2.1]
      · rw [hsOut]
        exact update_visible_self _ L1
    · have hg := hGood M' hMs
      refine ⟨hg.1, hg.2.1, ?_⟩
      rw [hsOut]
      rw [mem_update_visible_ne hMne]
      exact hg.2.2
  · rw [hlev, set_level_map_price]
    exact hndL
  · rw [hlk, hlk2def, setKey_keys]
    exact eraseKey_keys_nodup hndK tid
  · intro e he
    rw [hlk, hlk2def] at he
    rcases mem_setKey he with henew | ⟨herase, hene⟩
    · subst henew
      refine ⟨L1, ?_, lastOrd, ?_, rfl⟩
      · show find_level sOut L.price = some L1
        rw [hLp]
        exact hfOutEq
      · show L1.orders.get? loc.index = some lastOrd
        exact hmv
    · obtain ⟨hes, hetid⟩ := mem_eraseKey herase
      obtain ⟨L'', hfe, ord_e, hge, hide⟩ := hE4 e hes
      by_cases hep : e.2.price = loc.price
      · have hL'' : L'' = L := by
          rw [hep, hfl] at hfe
          injection hfe with h
          exact h.symm
        rw [hL''] at hge
        have hei : e.2.index ≠ loc.index := by
          intro he2
          rw [he2, hget] at hge
          injection hge with h
          apply hetid
          rw [← hide, ← h, hot]
        have heil : e.2.index ≠ L.orders.length - 1 := by
          intro he2
          rw [he2, hlast] at hge
          injection hge with h
          apply hene
          rw [← hide, ← h]
        have helt : e.2.index < L.orders.length - 1 := by
          have := get?_some_lt hge
          omega
        refine ⟨L1, by rw [hep]; exact hfOutEq, ord_e, ?_, hide⟩
        rw [hother e.2.index hei, if_pos helt]
        exact hge
      · refine ⟨L'', ?_, ord_e, hge, hide⟩
        rw [hfOutNe e.2.price (by rw [hp1, hLp]; exact hep)]
        exact hfe
  · intro M' hM' i ord1 hord1
    rw [hlk, hlk2def]
    rcases hmemOut M' hM' with hML1 | ⟨hMs, hMne⟩
    · subst hML1
      by_cases hi : i = loc.index
      · subst hi
        rw [hmv] at hord1
        have ho1 : ord1 = lastOrd := by
          injection hord1 with h
          exact h.symm
        subst ho1
        rw [hp1]
        exact lookupFind_setKey_self _ hlk1
      · have hilt : i < L.orders.length - 1 := by
          have hl := get?_some_lt hord1
          rw [hlen1] at hl
          omega
        have hord1' : L.orders.get? i = some ord1 := by
          rw [hother i hi, if_pos hilt] at hord1
          exact hord1
        have h5 := hE5 L hLmem i ord1 hord1'
        have hne_t : ord1.id ≠ tid := by
          intro he
          have hu := inv_position_unique hInv hLmem hLmem hord1' hget (by rw [he, hot])
          exact hi hu.2
        have hne_l : ord1.id ≠ lastOrd.id := by
          intro he
          have hu := inv_position_unique hInv hLmem hLmem hord1' hlast he
          exact absurd hu.2 (by omega)
        rw [hp1, lookupFind_setKey_ne hne_l,
            lookupFind_eraseKey_ne s.order_lookup tid ord1.id hne_t]
        exact h5
    · have h5 := hE5 M' hMs i ord1 hord1
      have hMneL : M' ≠ L := by
        intro he
        rw [he] at hMne
        exact hMne hp1.symm
      have hne_t : ord1.id ≠ tid := by
        intro he
        have hu := inv_position_unique hInv hMs hLmem hord1 hget (by rw [he, hot])
        exact hMneL hu.1
      have hne_l : ord1.id ≠ lastOrd.id := by
        intro he
        have hu := inv_position_unique hInv hMs hLmem hord1 hlast he
        exact hMneL hu.1
      rw [lookupFind_setKey_ne hne_l,
          lookupFind_eraseKey_ne s.order_lookup tid ord1.id hne_t]
      exact h5

/-- Full consumption of the last slot of a level that keeps further orders:
no moved order, the lookup entry is simply erased. -/
theorem inv_full_noswap_keep (s : EngineState) (hInv : Inv s) (tid : Nat)
    (loc : Location) (L : Level) (ord : Order)
    (hloc : lookupFind s.order_lookup tid = some loc)
    (hfl : find_level s loc.price = some L)
    (hget : L.orders.get? loc.index = some ord)
    (hli : loc.index = L.orders.length - 1) :
    Inv (update_visible_price
      { set_level s (Level.remove L loc.index) with
          order_lookup := eraseKey s.order_lookup tid }
      (Level.remove L loc.index)) := by
  have hidx : loc.index < L.orders.length := get?_some_lt hget
  obtain ⟨hLmem, hLp⟩ := find_level_some_mem hfl
  have hot : ord.id = tid := inv_target_id hInv hloc hfl hget
  obtain ⟨hp1, hnet1, hcnt1, hlen1, hsum1, hother, hmoved⟩ :=
    level_remove_spec L loc.index ord hget
  have hGood := hInv.1
  have hndL := hInv.2.1
  have hndK := hInv.2.2.1
  have hE4 := hInv.2.2.2.1
  have hE5 := hInv.2.2.2.2
  set L1 : Level := Level.remove L loc.index with hL1def
  set sOut := update_visible_price
    { set_level s L1 with order_lookup := eraseKey s.order_lookup tid } L1
    with hsOut
  have hlev : sOut.levels = (set_level s L1).levels := update_visible_price_levels _ _
  have hlk : sOut.order_lookup = eraseKey s.order_lookup tid :=
    update_visible_price_lookup _ _
  have hfOutNe : ∀ q, q ≠ L1.price → find_level sOut q = find_level s q := by
    intro q hq
    rw [find_level_eq_of_levels q hlev]
    exact find_level_set_level_ne hq
  have hfOutEq : find_level sOut loc.price = some L1 := by
    rw [find_level_eq_of_levels loc.price hlev]
    exact find_level_set_level_eq L1 hfl hp1
  have hmemOut : ∀ M' ∈ sOut.levels, M' = L1 ∨ (M' ∈ s.levels ∧ M'.price ≠ L1.price) := by
    intro M' hM'
    exact mem_set_level (hlev ▸ hM')
  unfold Inv
  refine ⟨?_, ?_, ?_, ?_, ?_⟩
  · intro M' hM'
    unfold LevelGood
    rcases hmemOut M' hM' with hML1 | ⟨hMs, hMne⟩
    · subst hML1
      refine ⟨?_, ?_, ?_⟩
      · rw [hsum1, hnet1, (hGood L hLmem).1]
      · rw [hcnt1, hlen1, (hGood L hLmem).2.1]
      · rw [hsOut]
        exact update_visible_self _ L1
    · have hg := hGood M' hMs
      refine ⟨hg.1, hg.2.1, ?_⟩
      rw [hsOut]
      rw [mem_update_visible_ne hMne]
      exact hg.2.2
  · rw [hlev, set_level_map_price]
    exact hndL
  · rw [hlk]
    exact eraseKey_keys_nodup hndK tid
  · intro e he
    rw [hlk] at he
    obtain ⟨hes, hetid⟩ := mem_eraseKey he
    obtain ⟨L'', hfe, ord_e, hge, hide⟩ := hE4 e hes
    by_cases hep : e.2.price = loc.price
    · have hL'' : L'' = L := by
        rw [hep, hfl] at hfe
        injection hfe with h
        exact h.symm
      rw [hL''] at hge
      have hei : e.2.index ≠ loc.index := by
        intro he2
        rw [he2, hget] at hge
        injection hge with h
        apply hetid
        rw [← hide, ← h, hot]
      have helt : e.2.index < L.orders.length - 1 := by
        have := get?_some_lt hge
        omega
      refine ⟨L1, by rw [hep]; exact hfOutEq, ord_e, ?_, hide⟩
      rw [hother e.2.index hei, if_pos helt]
      exact hge
    · refine ⟨L'', ?_, ord_e, hge, hide⟩
      rw [hfOutNe e.2.price (by rw [hp1, hLp]; exact hep)]
      exact hfe
  · intro M' hM' i ord1 hord1
    rw [hlk]
    rcases hmemOut M' hM' with hML1 | ⟨hMs, hMne⟩
    · subst hML1
      have hilt : i < L.orders.length - 1 := by
        have hl := get?_some_lt hord1
        rw [hlen1] at hl
        exact hl
      have hine : i ≠ loc.index := by omega
      have hord1' : L.orders.get? i = some ord1 := by
        rw [hother i hine, if_pos hilt] at hord1
        exact hord1
      have h5 := hE5 L hLmem i ord1 hord1'
      have hne_t : ord1.id ≠ tid := by
        intro he
        have hu := inv_position_unique hInv hLmem hLmem hord1' hget (by rw [he, hot])
        exact hine hu.2
      rw [hp1, lookupFind_eraseKey_ne s.order_lookup tid ord1.id hne_t]
      exact h5
    · have h5 := hE5 M' hMs i ord1 hord1
      have hMneL : M' ≠ L := by
        intro he
        rw [he] at hMne
        exact hMne hp1.symm
      have hne_t : ord1.id ≠ tid := by
        intro he
        have hu := inv_position_unique hInv hMs hLmem hord1 hget (by rw [he, hot])
        exact hMneL hu.1
      rw [lookupFind_eraseKey_ne s.order_lookup tid ord1.id hne_t]
      exact h5

/-- Full consumption of the only order of a level: the level itself is
removed from the book and its bitmap bit cleared. -/
theorem inv_full_remove (s : EngineState) (hInv : Inv s) (tid : Nat)
    (loc : Location) (L : Level) (ord : Order)
    (hloc : lookupFind s.order_lookup tid = some loc)
    (hfl : find_level s loc.price = some L)
    (hget : L.orders.get? loc.index = some ord)
    (hn1 : L.orders.length = 1) :
    Inv (remove_level
      { set_level s (Level.remove L loc.index) with
          order_lookup := eraseKey s.order_lookup tid }
      (Level.remove L loc.index).price) := by
  have hidx : loc.index < L.orders.length := get?_some_lt hget
  have hi0 : loc.index = 0 := by omega
  obtain ⟨hLmem, hLp⟩ := find_level_some_mem hfl
  have hot : ord.id = tid := inv_target_id hInv hloc hfl hget
  obtain ⟨hp1, hnet1, hcnt1, hlen1, hsum1, hother, hmoved⟩ :=
    level_remove_spec L loc.index ord hget
  have hGood := hInv.1
  have hndL := hInv.2.1
  have hndK := hInv.2.2.1
  have hE4 := hInv.2.2.2.1
  have hE5 := hInv.2.2.2.2
  set L1 : Level := Level.remove L loc.index with hL1def
  set sOut := remove_level
    { set_level s L1 with order_lookup := eraseKey s.order_lookup tid } L1.price
    with hsOut
  have hlev : sOut.levels = (set_level s L1).levels.filter
      (fun M => !(M.price == L1.price)) := remove_level_levels_eq _ _
  have hlk : sOut.order_lookup = eraseKey s.order_lookup tid :=
    remove_level_lookup _ _
  have hmemOut : ∀ M' ∈ sOut.levels, M' ∈ s.levels ∧ M'.price ≠ L1.price := by
    intro M' hM'
    rw [hlev] at hM'
    have h1 := List.mem_filter.mp hM'
    have hne : M'.price ≠ L1.price := by simpa using h1.2
    rcases mem_set_level h1.1 with hML1 | ⟨hMs, hMne⟩
    · exact absurd (by rw [hML1]) hne
    · exact ⟨hMs, hne⟩
  have hfOutNe : ∀ q, q ≠ L1.price → find_level sOut q = find_level s q := by
    intro q hq
    show sOut.levels.find? (fun M => M.price == q) = _
    rw [hlev, find?_level_filter_ne hq]
    exact find_level_set_level_ne hq
  unfold Inv
  refine ⟨?_, ?_, ?_, ?_, ?_⟩
  · intro M' hM'
    obtain ⟨hMs, hMne⟩ := hmemOut M' hM'
    have hg := hGood M' hMs
    refine ⟨hg.1, hg.2.1, ?_⟩
    rw [hsOut, mem_remove_level_iff hMne]
    exact hg.2.2
  · rw [hlev]
    have hsub : List.Sublist
        (((set_level s L1).levels.filter
          (fun M => !(M.price == L1.price))).map Level.price)
        ((set_level s L1).levels.map Level.price) :=
      List.Sublist.map _ (List.filter_sublist _)
    have hnd2 : ((set_level s L1).levels.map Level.price).Nodup := by
      rw [set_level_map_price]
      exact hndL
    exact hnd2.sublist hsub
  · rw [hlk]
    exact eraseKey_keys_nodup hndK tid
  · intro e he
    rw [hlk] at he
    obtain ⟨hes, hetid⟩ := mem_eraseKey he
    obtain ⟨L'', hfe, ord_e, hge, hide⟩ := hE4 e hes
    have hep : e.2.price ≠ loc.price := by
      intro hep
      have hL'' : L'' = L := by
        rw [hep, hfl] at hfe
        injection hfe with h
        exact h.symm
      rw [hL''] at hge
      have hei : e.2.index = loc.index := by
        have := get?_some_lt hge
        omega
      rw [hei, hget] at hge
      injection hge with h
      apply hetid
      rw [← hide, ← h, hot]
    refine ⟨L'', ?_, ord_e, hge, hide⟩
    rw [hfOutNe e.2.price (by rw [hp1, hLp]; exact hep)]
    exact hfe
  · intro M' hM' i ord1 hord1
    rw [hlk]
    obtain ⟨hMs, hMne⟩ := hmemOut M' hM'
    have h5 := hE5 M' hMs i ord1 hord1
    have hMneL : M' ≠ L := by
      intro he
      rw [he] at hMne
      exact hMne hp1.symm
    have hne_t : ord1.id ≠ tid := by
      intro he
      have hu := inv_position_unique hInv hMs hLmem hord1 hget (by rw [he, hot])
      exact hMneL hu.1
    rw [lookupFind_eraseKey_ne s.order_lookup tid ord1.id hne_t]
    exact h5

/-- The full-consumption branch of `apply_volume_change` preserves the
invariant. -/
theorem inv_full (s : EngineState) (hInv : Inv s) (tid p : Nat) (v : Int)
    (loc : Location) (L : Level) (ord : Order)
    (hloc : lookupFind s.order_lookup tid = some loc)
    (hfl : find_level s loc.price = some L)
    (hget : L.orders.get? loc.index = some ord)
    (hz : ord.qty + v = 0) :
    Inv (apply_volume_change s tid p v).1 := by
  have hidx : loc.index < L.orders.length := get?_some_lt hget
  obtain ⟨hLmem, hLp⟩ := find_level_some_mem hfl
  have hcnt : L.order_count = L.orders.length := (hInv.1 L hLmem).2.1
  obtain ⟨hp1, hnet1, hcnt1, hlen1, hsum1, hother, hmoved⟩ :=
    level_remove_spec L loc.index ord hget
  unfold apply_volume_change
  rw [hloc]
  dsimp only
  rw [hfl]
  dsimp only
  rw [hget]
  dsimp only
  rw [if_pos hz]
  by_cases hswap : loc.index < (Level.remove L loc.index).orders.length
  · rw [if_pos hswap]
    have hn2 : loc.index < L.orders.length - 1 := by
      rw [hlen1] at hswap
      exact hswap
    obtain ⟨lastOrd, hlast⟩ : ∃ lo, L.orders.get? (L.orders.length - 1) = some lo := by
      rw [List.get?_eq_get (by omega)]
      exact ⟨_, rfl⟩
    have hmv : (Level.remove L loc.index).orders.get? loc.index = some lastOrd := by
      rw [hmoved hn2]
      exact hlast
    have hot : ord.id = tid := inv_target_id hInv hloc hfl hget
    have hlne : lastOrd.id ≠ tid := by
      intro he
      have hu := inv_position_unique hInv hLmem hLmem hlast hget (by rw [he, hot])
      exact absurd hu.2 (by omega)
    have h5last : lookupFind s.order_lookup lastOrd.id =
        some ⟨L.price, L.orders.length - 1⟩ :=
      hInv.2.2.2.2 L hLmem _ lastOrd hlast
    have hlk1 : lookupFind (eraseKey s.order_lookup tid) lastOrd.id =
        some ⟨L.price, L.orders.length - 1⟩ := by
      rw [lookupFind_eraseKey_ne s.order_lookup tid lastOrd.id hlne]
      exact h5last
    rw [hmv]
    dsimp only
    rw [hlk1]
    dsimp only
    rw [if_neg (by rw [hcnt1, hcnt]; omega)]
    exact inv_full_swap s hInv tid loc L ord lastOrd hloc hfl hget hlast hn2
  · rw [if_neg hswap]
    have hli : loc.index = L.orders.length - 1 := by
      rw [hlen1] at hswap
      omega
    by_cases hc0 : (Level.remove L loc.index).order_count = 0
    · rw [if_pos hc0]
      have hn1 : L.orders.length = 1 := by
        rw [hcnt1, hcnt] at hc0
        omega
      exact inv_full_remove s hInv tid loc L ord hloc hfl hget hn1
    · rw [if_neg hc0]
      exact inv_full_noswap_keep s hInv tid loc L ord hloc hfl hget hli

/-- `apply_volume_change` preserves the invariant. -/
theorem apply_volume_change_inv (s : EngineState) (tid p : Nat) (v : Int)
    (hInv : Inv s) : Inv (apply_volume_change s tid p v).1 := by
  cases hloc : lookupFind s.order_lookup tid with
  | none => exact inv_create s hInv tid p v hloc
  | some loc =>
    cases hfl : find_level s loc.price with
    | none =>
      unfold apply_volume_change
      rw [hloc]
      dsimp only
      rw [hfl]
      exact hInv
    | some L =>
      cases hget : L.orders.get? loc.index with
      | none =>
        unfold apply_volume_change
        rw [hloc]
        dsimp only
        rw [hfl]
        dsimp only
        rw [hget]
        exact hInv
      | some ord =>
        by_cases hz : ord.qty + v = 0
        · exact inv_full s hInv tid p v loc L ord hloc hfl hget hz
        · have h := inv_modify s hInv loc L ord v hfl hget
          unfold apply_volume_change
          rw [hloc]
          dsimp only
          rw [hfl]
          dsimp only
          rw [hget]
          dsimp only
          rw [if_neg hz]
          exact h

/-!  C1 Stage 3: the invariant propagates through the whole engine. -/

theorem inv_update_tob_after_trade (s : EngineState) (o : L2Order) (b : Bool)
    (tp : Nat) (h : Inv s) : Inv (update_tob_after_trade s o b tp) := by
  unfold update_tob_after_trade
  dsimp only
  split
  · split
    · exact Inv_congr rfl rfl rfl h
    · exact Inv_congr rfl rfl rfl h
  · split
    · exact Inv_congr rfl rfl rfl h
    · exact Inv_congr rfl rfl rfl h

theorem inv_enqueue_deferred (s : EngineState) (k : Nat) (d : DeferredOrder)
    (h : Inv s) : Inv (enqueue_deferred s k d) := by
  unfold enqueue_deferred
  split
  · exact h
  · exact Inv_congr rfl rfl rfl h

theorem cleanup_special_levels (s : EngineState) (o : L2Order) (tid : Nat) :
    (cleanup_special s o tid).levels = s.levels := by
  unfold cleanup_special
  dsimp only
  generalize (if o.order_dir = 0 then o.bid_order_id else o.ask_order_id) = sid
  by_cases hc : sid ≠ 0 ∧ sid ≠ tid
  · rw [if_pos hc]
    cases lookupFind s.deferred_queue sid with
    | none => rfl
    | some sd =>
      show (if sd.reason = DeferReason.SPECIAL_MAKER then _ else s).levels = _
      split <;> rfl
  · rw [if_neg hc]

theorem cleanup_special_order_lookup (s : EngineState) (o : L2Order) (tid : Nat) :
    (cleanup_special s o tid).order_lookup = s.order_lookup := by
  unfold cleanup_special
  dsimp only
  generalize (if o.order_dir = 0 then o.bid_order_id else o.ask_order_id) = sid
  by_cases hc : sid ≠ 0 ∧ sid ≠ tid
  · rw [if_pos hc]
    cases lookupFind s.deferred_queue sid with
    | none => rfl
    | some sd =>
      show (if sd.reason = DeferReason.SPECIAL_MAKER then _ else s).order_lookup = _
      split <;> rfl
  · rw [if_neg hc]

theorem inv_cleanup_special (s : EngineState) (o : L2Order) (tid : Nat)
    (h : Inv s) : Inv (cleanup_special s o tid) :=
  Inv_congr (cleanup_special_levels s o tid) (cleanup_special_order_lookup s o tid)
    (cleanup_special_visible s o tid) h

theorem inv_update_lob_deferred (s : EngineState) (o : L2Order) (sv : Int)
    (tid : Nat) (found ica : Bool) (h : Inv s) :
    Inv (update_lob_deferred s o sv tid found ica).2 := by
  have hq : ∀ q : List (Nat × DeferredOrder), Inv { s with deferred_queue := q } :=
    fun _ => Inv_congr rfl rfl rfl h
  unfold update_lob_deferred
  dsimp only
  split
  · -- MAKER
    split
    · -- price = 0
      cases lookupFind s.deferred_queue tid with
      | some d =>
        dsimp only
        split
        · exact hq _
        · exact inv_enqueue_deferred _ _ _ (hq _)
      | none => exact inv_enqueue_deferred _ _ _ h
    · split
      · -- extended call auction window
        cases lookupFind s.deferred_queue tid with
        | some d =>
          dsimp only
          split
          · exact hq _
          · exact inv_enqueue_deferred _ _ _ (hq _)
        | none => exact inv_enqueue_deferred _ _ _ h
      · -- continuous session
        cases lookupFind s.deferred_queue tid with
        | some d =>
          dsimp only
          split
          · exact hq _
          · exact apply_volume_change_inv _ _ _ _ (hq _)
        | none => exact apply_volume_change_inv _ _ _ _ h
  · split
    · -- TAKER
      cases lookupFind s.deferred_queue tid with
      | some d =>
        dsimp only
        refine inv_cleanup_special _ _ _ ?_
        split
        · exact hq _
        · exact hq _
      | none =>
        dsimp only
        split
        · exact inv_cleanup_special _ _ _
            (inv_update_tob_after_trade _ _ _ _ (apply_volume_change_inv _ _ _ _ h))
        · exact inv_enqueue_deferred _ _ _ h
    · split
      · -- CANCEL
        cases lookupFind s.deferred_queue tid with
        | some d =>
          dsimp only
          split
          · exact hq _
          · exact hq _
        | none =>
          dsimp only
          split
          · exact apply_volume_change_inv _ _ _ _ h
          · exact inv_enqueue_deferred _ _ _ h
      · exact h

theorem inv_update_lob (s : EngineState) (o : L2Order) (h : Inv s) :
    Inv (update_lob s o).2 := by
  unfold update_lob
  dsimp only
  split
  · exact h
  · split
    · split
      · exact inv_update_tob_after_trade _ _ _ _ (apply_volume_change_inv _ _ _ _ h)
      · exact apply_volume_change_inv _ _ _ _ h
    · split
      · split
        · exact inv_update_lob_deferred _ _ _ _ _ _ h
        · exact apply_volume_change_inv _ _ _ _ h
      · exact inv_update_lob_deferred _ _ _ _ _ _ h

theorem inv_flush_apply (l : List (Nat × DeferredOrder)) (s : EngineState)
    (h : Inv s) : Inv (flush_apply s l) := by
  induction l generalizing s with
  | nil => exact h
  | cons e rest ih =>
    cases e with
    | mk k d => exact ih _ (apply_volume_change_inv _ _ _ _ h)

theorem inv_flush_call_auction (s : EngineState) (h : Inv s) :
    Inv (flush_call_auction_deferred s) := by
  unfold flush_call_auction_deferred
  exact inv_flush_apply _ _ (Inv_congr rfl rfl rfl h)

theorem inv_process (s : EngineState) (o : L2Order) (h : Inv s) :
    Inv (process s o).2 := by
  unfold process
  dsimp only
  apply inv_update_lob
  split
  · exact Inv_congr rfl rfl rfl (inv_flush_call_auction _ (Inv_congr rfl rfl rfl h))
  · exact Inv_congr rfl rfl rfl h

theorem inv_process_batch (evs : List L2Order) (s : EngineState) (h : Inv s) :
    Inv (process_batch s evs) := by
  induction evs generalizing s with
  | nil => exact h
  | cons o rest ih => exact ih _ (inv_process s o h)

/-- The inductive invariant implies the claim's executable invariant check. -/
theorem check_of_Inv {s : EngineState} (h : Inv s) :
    check_claim_invariant s = true := by
  obtain ⟨hGood, -, -, hE4, -⟩ := h
  unfold check_claim_invariant
  rw [Bool.and_eq_true]
  constructor
  · rw [List.all_eq_true]
    intro L hL
    obtain ⟨h1, h2, h3⟩ := hGood L hL
    rw [Bool.and_eq_true, Bool.and_eq_true]
    refine ⟨⟨?_, ?_⟩, ?_⟩
    · exact beq_iff_eq.mpr h1
    · exact beq_iff_eq.mpr h2
    · rw [beq_iff_eq]
      by_cases hz : L.net_quantity = 0
      · have hnm : L.price ∉ s.visible := fun hm => (h3.mp hm) hz
        simp [hz, hnm]
      · have hm : L.price ∈ s.visible := h3.mpr hz
        simp [hz, hm]
  · rw [List.all_eq_true]
    intro e he
    obtain ⟨L, hfl, ord, hget, hid⟩ := hE4 e he
    rw [hfl]
    dsimp only
    rw [hget]
    exact beq_iff_eq.mpr hid

/-- C1: from a fresh engine, after processing any stream of events, every
price level's cached `net_quantity` equals the sum of its stored order
quantities, its cached `order_count` equals the number of stored orders, the
visible-price bitmap holds a level's price exactly when its net quantity is
nonzero, and every `order_lookup` entry points at a live level slot holding an
order with the entry's id. -/
theorem book_invariants_hold (evs : List L2Order) :
    check_claim_invariant (process_batch initState evs) = true :=
  check_of_Inv (inv_process_batch evs initState Inv_initState)

/-!  The flush applies each erased `CALL_AUCTION` entry to the book (for C3). -/

theorem find_level_update_visible (s0 : EngineState) (L0 : Level) (q : Nat) :
    find_level (update_visible_price s0 L0) q = find_level s0 q :=
  find_level_eq_of_levels q (update_visible_price_levels s0 L0)

/-- The create branch appends exactly one lookup entry, keyed by the target
id. -/
theorem apply_volume_change_create_lookup (s : EngineState) (tid p : Nat) (v : Int)
    (hl : lookupFind s.order_lookup tid = none) :
    ∃ nloc, (apply_volume_change s tid p v).1.order_lookup =
      s.order_lookup ++ [(tid, nloc)] := by
  unfold apply_volume_change
  rw [hl]
  dsimp only
  split
  next L hL =>
    exact ⟨⟨p, L.orders.length⟩, update_visible_price_lookup _ _⟩
  next hnone =>
    exact ⟨⟨p, 0⟩, update_visible_price_lookup _ _⟩

/-- Ids absent from the lookup stay absent through a create for another id. -/
theorem create_lookup_none_preserved (s : EngineState) (k p : Nat) (v : Int)
    (hk : lookupFind s.order_lookup k = none)
    (rest : List (Nat × DeferredOrder))
    (hnew : ∀ e ∈ rest, lookupFind s.order_lookup e.1 = none)
    (hkne : ∀ e ∈ rest, e.1 ≠ k) :
    ∀ e ∈ rest, lookupFind (apply_volume_change s k p v).1.order_lookup e.1 = none := by
  intro e he
  obtain ⟨nloc, hlk⟩ := apply_volume_change_create_lookup s k p v hk
  rw [hlk, lookupFind_append_right (hnew e he)]
  unfold lookupFind
  rw [find?_keyed_cons_neg (k, nloc) [] e.1 (Ne.symm (hkne e he))]
  rfl

/-- A create for an unknown id keeps every stored order where a level lookup
finds it: the targeted level only grows, other levels are untouched. -/
theorem apply_volume_change_keeps_order (s : EngineState) (tid p : Nat) (v : Int)
    (q : Nat) (ord : Order) (hl : lookupFind s.order_lookup tid = none)
    (L : Level) (hfL : find_level s q = some L) (hmem : ord ∈ L.orders) :
    ∃ L2, find_level (apply_volume_change s tid p v).1 q = some L2 ∧
      ord ∈ L2.orders := by
  unfold apply_volume_change
  rw [hl]
  dsimp only
  split
  next M hM =>
    dsimp only
    obtain ⟨hMmem, hMp⟩ := find_level_some_mem hM
    by_cases hqp : q = p
    · have hLM : M = L := by
        rw [hqp, hM] at hfL
        exact Option.some.inj hfL
      refine ⟨Level.add M ⟨v, tid⟩, ?_, ?_⟩
      · rw [find_level_update_visible]
        show find_level (set_level s (Level.add M ⟨v, tid⟩)) q = _
        rw [hqp]
        exact find_level_set_level_eq _ hM rfl
      · show ord ∈ M.orders ++ [(⟨v, tid⟩ : Order)]
        rw [hLM]
        exact List.mem_append_left _ hmem
    · refine ⟨L, ?_, hmem⟩
      rw [find_level_update_visible]
      show find_level (set_level s (Level.add M ⟨v, tid⟩)) q = some L
      rw [find_level_set_level_ne (by
        show q ≠ (Level.add M ⟨v, tid⟩).price
        rw [show (Level.add M ⟨v, tid⟩).price = M.price from rfl, hMp]
        exact hqp)]
      exact hfL
  next hnone =>
    dsimp only
    have hqp : q ≠ p := by
      intro he
      rw [he, hnone] at hfL
      exact absurd hfL (by simp)
    refine ⟨L, ?_, hmem⟩
    rw [find_level_update_visible]
    show (s.levels ++ [Level.add ⟨p, 0, 0, []⟩ ⟨v, tid⟩]).find?
        (fun N => N.price == q) = some L
    rw [find?_level_append_ne _ (Ne.symm hqp)]
    exact hfL

/-- Stored orders survive a whole flush loop over fresh ids. -/
theorem flush_apply_keeps_order (calls : List (Nat × DeferredOrder)) :
    ∀ (s : EngineState), (calls.map Prod.fst).Nodup →
    (∀ e ∈ calls, lookupFind s.order_lookup e.1 = none) →
    ∀ (q : Nat) (ord : Order) (L : Level), find_level s q = some L → ord ∈ L.orders →
    ∃ L2, find_level (flush_apply s calls) q = some L2 ∧ ord ∈ L2.orders := by
  induction calls with
  | nil =>
    intro s _ _ q ord L hfL hmem
    exact ⟨L, hfL, hmem⟩
  | cons c rest ih =>
    intro s hkeys hnew q ord L hfL hmem
    obtain ⟨k, d⟩ := c
    have hk : lookupFind s.order_lookup k = none := hnew (k, d) (List.mem_cons_self _ _)
    have hkne : ∀ e2 ∈ rest, e2.1 ≠ k := by
      intro e2 he2 hh
      have hni := (List.nodup_cons.mp hkeys).1
      have hmm := List.mem_map_of_mem Prod.fst he2
      apply hni
      rw [← hh]
      exact hmm
    have hnew' := create_lookup_none_preserved s k d.reported_price d.signed_volume hk
        rest (fun e2 he2 => hnew e2 (List.mem_cons_of_mem _ he2)) hkne
    obtain ⟨L2, hfL2, hmem2⟩ := apply_volume_change_keeps_order s k d.reported_price
        d.signed_volume q ord hk L hfL hmem
    exact ih _ (List.nodup_cons.mp hkeys).2 hnew' q ord L2 hfL2 hmem2

/-- Each flushed entry ends up in the book: the level at its reported price
holds the order `{signed_volume, id}` after the whole loop. -/
theorem flush_apply_creates (calls : List (Nat × DeferredOrder)) :
    ∀ (s : EngineState), (calls.map Prod.fst).Nodup →
    (∀ e ∈ calls, lookupFind s.order_lookup e.1 = none) →
    ∀ e ∈ calls, ∃ L, find_level (flush_apply s calls) e.2.reported_price = some L ∧
      (⟨e.2.signed_volume, e.1⟩ : Order) ∈ L.orders := by
  induction calls with
  | nil =>
    intro s _ _ e he
    exact absurd he (by simp)
  | cons c rest ih =>
    intro s hkeys hnew e he
    obtain ⟨k, d⟩ := c
    have hk : lookupFind s.order_lookup k = none := hnew (k, d) (List.mem_cons_self _ _)
    have hkne : ∀ e2 ∈ rest, e2.1 ≠ k := by
      intro e2 he2 hh
      have hni := (List.nodup_cons.mp hkeys).1
      have hmm := List.mem_map_of_mem Prod.fst he2
      apply hni
      rw [← hh]
      exact hmm
    have hnew' := create_lookup_none_preserved s k d.reported_price d.signed_volume hk
        rest (fun e2 he2 => hnew e2 (List.mem_cons_of_mem _ he2)) hkne
    rcases List.mem_cons.mp he with hec | her
    · subst hec
      obtain ⟨L1, hfL1, hmemL1⟩ :=
        apply_volume_change_create s k d.reported_price d.signed_volume hk
      exact flush_apply_keeps_order rest _ (List.nodup_cons.mp hkeys).2 hnew'
        d.reported_price ⟨d.signed_volume, k⟩ L1 hfL1 hmemL1
    · exact ih _ (List.nodup_cons.mp hkeys).2 hnew' e her

/-- C3 (amended): when the engine observed an event inside the matching period
(09:25-09:30) — the `static` transition flag is set — and the next event's
timestamp lies outside both the matching period and the call-auction windows,
processing that event first flushes the deferred queue: the processed state
factors through `flush_call_auction_deferred` (third conjunct), the flushed
state holds, for every erased `CALL_AUCTION` entry whose id is not already in
the book (always the case for deferred makers), the order
`{signed_volume, id}` at the level of its `reported_price` (second conjunct),
and after the call the deferred queue holds no `CALL_AUCTION` entry (first
conjunct; the event itself cannot re-defer as `CALL_AUCTION` outside the
windows).  Without an observed in-window event, or once the 14:57-15:00
closing window adds fresh `CALL_AUCTION` entries, such entries can persist
past 09:30 (see the counterexample). -/
theorem call_auction_flushed_on_matching_exit (s : EngineState) (o : L2Order)
    (hwas : s.was_in_matching_period = true)
    (hmp : is_call_auction_matching_period (pack_tick o) = false)
    (hca : is_call_auction_period (pack_tick o) = false)
    (hkeys : ((s.deferred_queue.filter
        (fun e => e.2.reason == DeferReason.CALL_AUCTION)).map Prod.fst).Nodup)
    (hnew : ∀ e ∈ s.deferred_queue.filter
        (fun e => e.2.reason == DeferReason.CALL_AUCTION),
      lookupFind s.order_lookup e.1 = none) :
    no_call_auction_deferred (process s o).2 = true ∧
    (∀ e ∈ s.deferred_queue.filter
        (fun e => e.2.reason == DeferReason.CALL_AUCTION),
      ∃ L, find_level (flush_call_auction_deferred
          { s with curr_tick := pack_tick o,
                   new_tick := (pack_tick o != s.prev_tick) })
          e.2.reported_price = some L ∧
        (⟨e.2.signed_volume, e.1⟩ : Order) ∈ L.orders) ∧
    (process s o).2 =
      (update_lob
        { flush_call_auction_deferred
            { s with curr_tick := pack_tick o,
                     new_tick := (pack_tick o != s.prev_tick) } with
          was_in_matching_period := is_call_auction_matching_period (pack_tick o),
          prev_tick := (flush_call_auction_deferred
            { s with curr_tick := pack_tick o,
                     new_tick := (pack_tick o != s.prev_tick) }).curr_tick } o).2 := by
  refine ⟨?_, ?_, ?_⟩
  · unfold process
    dsimp only
    rw [hwas, hmp, hca]
    simp only [Bool.not_false, Bool.true_and, Bool.and_self, if_true]
    apply update_lob_no_ca
    · simpa [flush_curr_tick] using hmp
    · simpa [flush_curr_tick] using hca
    · exact no_ca_of_queue_eq rfl (no_ca_flush _)
  · intro e he
    exact flush_apply_creates
        (s.deferred_queue.filter (fun e2 => e2.2.reason == DeferReason.CALL_AUCTION))
        { { s with curr_tick := pack_tick o,
                   new_tick := (pack_tick o != s.prev_tick) } with
            deferred_queue := s.deferred_queue.filter
              (fun e2 => !(e2.2.reason == DeferReason.CALL_AUCTION)) }
        hkeys hnew e he
  · unfold process
    dsimp only
    rw [hwas, hmp, hca]
    simp only [Bool.not_false, Bool.true_and, Bool.and_self, if_true]

/-- Witness for the amended C3 theorem: a state holding one `CALL_AUCTION`
entry with the transition flag set, hit by a 09:31 maker. -/
theorem call_auction_flushed_on_matching_exit_witness :
    no_call_auction_deferred
      (process
        { initState with
            deferred_queue := [(1, ⟨100, 990, 152305664, DeferReason.CALL_AUCTION, true⟩)],
            was_in_matching_period := true }
        c3_ev2).2 = true :=
  (call_auction_flushed_on_matching_exit _ c3_ev2 rfl (by decide) (by decide)
    (by decide) (by decide)).1

/-!  The two maker sub-cases the unified deduction rule keeps out of the
book: zero-price special makers and makers inside the auction windows both
re-defer the summed volume instead of creating it. -/

/-- MAKER with price 0 meeting a deferred entry: the entry is erased; a zero
sum leaves only the erasure, a nonzero sum is re-deferred as `SPECIAL_MAKER`
and the book's levels are untouched. -/
theorem update_lob_deferred_maker_special (s : EngineState) (o : L2Order) (sv : Int)
    (tid : Nat) (found ica : Bool) (d : DeferredOrder)
    (htype : o.order_type = MAKER) (hp : o.price = 0)
    (hq : lookupFind s.deferred_queue tid = some d) :
    (sv + d.signed_volume = 0 →
      (update_lob_deferred s o sv tid found ica).2 =
        { s with deferred_queue := eraseKey s.deferred_queue tid }) ∧
    (sv + d.signed_volume ≠ 0 →
      lookupFind (update_lob_deferred s o sv tid found ica).2.deferred_queue tid =
        some ⟨sv + d.signed_volume, 0, s.curr_tick, DeferReason.SPECIAL_MAKER,
              o.order_dir = 0⟩ ∧
      (update_lob_deferred s o sv tid found ica).2.levels = s.levels) := by
  unfold update_lob_deferred
  dsimp only
  rw [if_pos htype, if_pos hp, hq]
  dsimp only
  by_cases hz : sv + d.signed_volume = 0
  · rw [if_pos hz]
    exact ⟨fun _ => rfl, fun hnz => absurd hz hnz⟩
  · rw [if_neg hz]
    refine ⟨fun hzz => absurd hzz hz, fun _ => ⟨?_, ?_⟩⟩
    · show lookupFind (enqueue_deferred
          { s with deferred_queue := eraseKey s.deferred_queue tid } tid
          ⟨sv + d.signed_volume, 0, s.curr_tick, DeferReason.SPECIAL_MAKER,
           o.order_dir = 0⟩).deferred_queue tid = _
      unfold enqueue_deferred
      dsimp only
      rw [lookupFind_eraseKey_self s.deferred_queue tid]
      dsimp only
      rw [lookupFind_append_right (lookupFind_eraseKey_self s.deferred_queue tid)]
      rw [mem_lookup_of_nodup (by simp) (List.mem_singleton.mpr rfl)]
    · show (enqueue_deferred
          { s with deferred_queue := eraseKey s.deferred_queue tid } tid
          ⟨sv + d.signed_volume, 0, s.curr_tick, DeferReason.SPECIAL_MAKER,
           o.order_dir = 0⟩).levels = s.levels
      unfold enqueue_deferred
      dsimp only
      rw [lookupFind_eraseKey_self s.deferred_queue tid]

/-- MAKER with nonzero price inside the extended call-auction window meeting a
deferred entry: the entry is erased; a zero sum leaves only the erasure, a
nonzero sum is re-deferred as `CALL_AUCTION` at the maker's price and the
book's levels are untouched. -/
theorem update_lob_deferred_maker_auction (s : EngineState) (o : L2Order) (sv : Int)
    (tid : Nat) (found ica : Bool) (d : DeferredOrder)
    (htype : o.order_type = MAKER) (hp : o.price ≠ 0)
    (hwin : (ica || is_call_auction_matching_period s.curr_tick) = true)
    (hq : lookupFind s.deferred_queue tid = some d) :
    (sv + d.signed_volume = 0 →
      (update_lob_deferred s o sv tid found ica).2 =
        { s with deferred_queue := eraseKey s.deferred_queue tid }) ∧
    (sv + d.signed_volume ≠ 0 →
      lookupFind (update_lob_deferred s o sv tid found ica).2.deferred_queue tid =
        some ⟨sv + d.signed_volume, o.price, s.curr_tick, DeferReason.CALL_AUCTION,
              o.order_dir = 0⟩ ∧
      (update_lob_deferred s o sv tid found ica).2.levels = s.levels) := by
  unfold update_lob_deferred
  dsimp only
  rw [if_pos htype, if_neg hp, if_pos hwin, hq]
  dsimp only
  by_cases hz : sv + d.signed_volume = 0
  · rw [if_pos hz]
    exact ⟨fun _ => rfl, fun hnz => absurd hz hnz⟩
  · rw [if_neg hz]
    refine ⟨fun hzz => absurd hzz hz, fun _ => ⟨?_, ?_⟩⟩
    · show lookupFind (enqueue_deferred
          { s with deferred_queue := eraseKey s.deferred_queue tid } tid
          ⟨sv + d.signed_volume, o.price, s.curr_tick, DeferReason.CALL_AUCTION,
           o.order_dir = 0⟩).deferred_queue tid = _
      unfold enqueue_deferred
      dsimp only
      rw [lookupFind_eraseKey_self s.deferred_queue tid]
      dsimp only
      rw [lookupFind_append_right (lookupFind_eraseKey_self s.deferred_queue tid)]
      rw [mem_lookup_of_nodup (by simp) (List.mem_singleton.mpr rfl)]
    · show (enqueue_deferred
          { s with deferred_queue := eraseKey s.deferred_queue tid } tid
          ⟨sv + d.signed_volume, o.price, s.curr_tick, DeferReason.CALL_AUCTION,
           o.order_dir = 0⟩).levels = s.levels
      unfold enqueue_deferred
      dsimp only
      rw [lookupFind_eraseKey_self s.deferred_queue tid]

/-- C4 (amended): when an arriving event targets an id with a deferred-queue
entry, the signed volumes are summed.  For taker/cancel arrivals: a zero or
sign-flipped sum (relative to the entry) erases the entry, an unchanged sign
updates the entry to the sum.  For maker arrivals the entry is always erased
and a zero sum creates nothing; a nonzero sum — whether its sign flipped or
not — is created in the book as the residual order when the maker has a
nonzero price in continuous session, while a zero-price (special) maker
re-defers the sum as `SPECIAL_MAKER` and a maker inside the call-auction or
matching windows re-defers it as `CALL_AUCTION` at the maker's price, the
book's levels untouched in both deferring cases. -/
theorem unified_deduction_rule (s : EngineState) (o : L2Order) (d : DeferredOrder)
    (hq : lookupFind s.deferred_queue (get_target_id o) = some d)
    (hsv : get_signed_volume o ≠ 0) (htid : get_target_id o ≠ 0) :
    (o.order_type = TAKER ∨ o.order_type = CANCEL →
      ((d.signed_volume + get_signed_volume o = 0 ∨
        (d.signed_volume > 0 ∧ d.signed_volume + get_signed_volume o ≤ 0) ∨
        (d.signed_volume < 0 ∧ d.signed_volume + get_signed_volume o ≥ 0)) →
          lookupFind (update_lob s o).2.deferred_queue (get_target_id o) = none) ∧
      (¬(d.signed_volume + get_signed_volume o = 0 ∨
         (d.signed_volume > 0 ∧ d.signed_volume + get_signed_volume o ≤ 0) ∨
         (d.signed_volume < 0 ∧ d.signed_volume + get_signed_volume o ≥ 0)) →
          lookupFind (update_lob s o).2.deferred_queue (get_target_id o) =
            some { d with signed_volume := d.signed_volume + get_signed_volume o })) ∧
    (o.order_type = MAKER → o.price ≠ 0 →
     is_call_auction_period s.curr_tick = false →
     is_call_auction_matching_period s.curr_tick = false →
      lookupFind (update_lob s o).2.deferred_queue (get_target_id o) = none ∧
      (get_signed_volume o + d.signed_volume = 0 →
        (update_lob s o).2 =
          { s with deferred_queue := eraseKey s.deferred_queue (get_target_id o) }) ∧
      (get_signed_volume o + d.signed_volume ≠ 0 →
       lookupFind s.order_lookup (get_target_id o) = none →
        ∃ L1, find_level (update_lob s o).2 o.price = some L1 ∧
              (⟨get_signed_volume o + d.signed_volume, get_target_id o⟩ : Order) ∈
                L1.orders)) ∧
    (o.order_type = MAKER → o.price = 0 →
      (get_signed_volume o + d.signed_volume = 0 →
        (update_lob s o).2 =
          { s with deferred_queue := eraseKey s.deferred_queue (get_target_id o) }) ∧
      (get_signed_volume o + d.signed_volume ≠ 0 →
        lookupFind (update_lob s o).2.deferred_queue (get_target_id o) =
          some ⟨get_signed_volume o + d.signed_volume, 0, s.curr_tick,
                DeferReason.SPECIAL_MAKER, o.order_dir = 0⟩ ∧
        (update_lob s o).2.levels = s.levels)) ∧
    (o.order_type = MAKER → o.price ≠ 0 →
     (is_call_auction_period s.curr_tick = true ∨
      is_call_auction_matching_period s.curr_tick = true) →
      (get_signed_volume o + d.signed_volume = 0 →
        (update_lob s o).2 =
          { s with deferred_queue := eraseKey s.deferred_queue (get_target_id o) }) ∧
      (get_signed_volume o + d.signed_volume ≠ 0 →
        lookupFind (update_lob s o).2.deferred_queue (get_target_id o) =
          some ⟨get_signed_volume o + d.signed_volume, o.price, s.curr_tick,
                DeferReason.CALL_AUCTION, o.order_dir = 0⟩ ∧
        (update_lob s o).2.levels = s.levels)) := by
  rw [update_lob_slow s o hsv htid (lookupFind_nonempty hq)]
  refine ⟨?_, ?_, ?_, ?_⟩
  · intro htype
    exact update_lob_deferred_taker_cancel s o _ _ _ _ d htype hq
  · intro htype hp hca hmp
    exact update_lob_deferred_maker_flush s o _ _ _ _ d htype hp hca hmp hq
  · intro htype hp
    exact update_lob_deferred_maker_special s o _ _ _ _ d htype hp hq
  · intro htype hp hwin
    refine update_lob_deferred_maker_auction s o _ _ _ _ d htype hp ?_ hq
    rcases hwin with h | h
    · rw [h]
      rfl
    · rw [h]
      simp

/-- Witness for the amended C4 theorem: a taker exactly consuming a deferred
maker volume erases the queue entry. -/
theorem unified_deduction_rule_witness :
    lookupFind (update_lob
      { initState with
          deferred_queue := [(1, ⟨-8, 1000, 0, DeferReason.OUT_OF_ORDER, true⟩)] }
      ⟨10, 0, 0, 0, 3, 0, 1000, 8, 0, 1⟩).2.deferred_queue 1 = none :=
  ((unified_deduction_rule
      { initState with
          deferred_queue := [(1, ⟨-8, 1000, 0, DeferReason.OUT_OF_ORDER, true⟩)] }
      ⟨10, 0, 0, 0, 3, 0, 1000, 8, 0, 1⟩
      ⟨-8, 1000, 0, DeferReason.OUT_OF_ORDER, true⟩
      (by decide) (by decide) (by decide)).1
    (Or.inl (by decide))).1 (Or.inl (by decide))

end STK
